import Mathlib

/-!
# MACSio `hdf5s3` plugin: a shallow embedding of `plugins/macsio_hdf5s3.c`

The definitions below follow the C source function by function.

Conventions of the embedding
* a C string is the `List Char` of its characters before the terminating NUL,
  one `Char` for each C `char`, that is for each byte: the length of the list
  is what `strlen` returns;
* `int` is 32 bits wide, `size_t` and `long` are 64 bits wide (LP64); values are
  carried in `Int`/`Nat` and every conversion between the C types is written
  out (`to_size_t`, `to_int`, `to_unsigned`);
* the memory block an upload reads from is a `List UInt8` and a pointer into
  it is the offset from its first byte;
* calls into HDF5 that only configure a property list are recorded in the
  property list value (`Dcpl`): `filters` states what the plugin asks of the
  library, `pipeline` what the library then holds;
* writing past the end of a fixed-size array (`dummy[16]` in `get_tokval`,
  `fileName[256]` in `main_dump_mif`) is undefined in C: the embedding marks
  it (`Scan.overrun`, the field `overrun`, the result `none`) and says nothing
  of what the program does from there;
* a run of `main_dump_mif` is the list of the calls it makes to HDF5, libs3
  and `MACSIO_MIF` (`Event`), in order; what those libraries answer is part
  of the input (`DumpInput`);
* character arrays that the code copies and writes to are allocations of a
  `Heap`;
* the token hand-off of `MACSIO_MIF`, whose source is not part of the tree,
  is a transition system written from the specification (`MifState`).
-/

set_option autoImplicit false

namespace MACSio

/-! ## C integer conversions -/

/-- Conversion of a signed value to `size_t` (modulo `2^64`). -/
def to_size_t (x : Int) : Nat := (x % 2 ^ 64).toNat

/-- Conversion of an integer value to `int` (two's complement, 32 bits). -/
def to_int (x : Int) : Int :=
  let m := x % 2 ^ 32
  if m < 2 ^ 31 then m else m - 2 ^ 32

/-- Conversion of an integer value to `unsigned int` (modulo `2^32`). -/
def to_unsigned (x : Int) : Nat := (x % 2 ^ 32).toNat

/-! ## The upload cursor: `put_object_callback_data`, `putObjectDataCallback` -/

/-- The struct `put_object_callback_data`.  `data` is the read pointer, kept as
the offset from the start of the image buffer; `contentLength` is the number of
bytes still to send. -/
structure put_object_callback_data where
  data : Nat
  contentLength : Nat
  deriving DecidableEq, Repr

/-- What one call of `putObjectDataCallback` leaves behind: the return value,
the bytes `memcpy` placed at the start of the caller's `buffer`, and the
callback data after the call. -/
structure PutResult where
  ret : Int
  copied : List UInt8
  data : put_object_callback_data
  deriving DecidableEq, Repr

/-- The call `memcpy(buffer, src, n)` with `src` at offset `off` of `image`:
the `n` bytes that arrive in `buffer`. -/
def memcpy (image : List UInt8) (off n : Nat) : List UInt8 :=
  (image.drop off).take n

/-- The function `putObjectDataCallback(bufferSize, buffer, callbackData)`.
The comparison `data->contentLength >= bufferSize` is made in `size_t`, as is
the length argument of `memcpy`; `ret` is an `int`. -/
def putObjectDataCallback (image : List UInt8) (bufferSize : Int)
    (d : put_object_callback_data) : PutResult :=
  let r : Int × List UInt8 :=
    if d.contentLength ≠ 0 then
      if d.contentLength ≥ to_size_t bufferSize then
        (bufferSize, memcpy image d.data (to_size_t bufferSize))
      else
        (to_int d.contentLength, memcpy image d.data d.contentLength)
    else (0, [])
  { ret := r.1
    copied := r.2
    data :=
      { data := ((d.data : Int) + r.1).toNat
        contentLength := to_size_t ((d.contentLength : Int) - (to_size_t r.1 : Int)) } }

/-- The first `k` successive calls of `putObjectDataCallback`, each asking for
`bufferSize` bytes: the values returned, in call order, and the callback data
after the last call. -/
def pulls (image : List UInt8) (bufferSize : Int) :
    Nat → put_object_callback_data → List Int × put_object_callback_data
  | 0, d => ([], d)
  | k + 1, d =>
    let r := putObjectDataCallback image bufferSize d
    let rest := pulls image bufferSize k r.data
    (r.ret :: rest.1, rest.2)

/-! ## C library routines used by the option parser -/

/-- The C function `tolower` in the "C" locale. -/
def tolower (c : Char) : Char := c.toLower

/-- The C function `isspace` in the "C" locale: space, `\t`, `\n`, `\v`, `\f`, `\r`. -/
def isspace (c : Char) : Bool :=
  c.toNat = 32 || (9 ≤ c.toNat && c.toNat ≤ 13)

/-- The C function `isdigit`. -/
def isdigit (c : Char) : Bool := 48 ≤ c.toNat && c.toNat ≤ 57

/-- The C function `strncasecmp(s, t, n)`: the difference of the first pair of
characters that differ after `tolower`, looking at no more than `n` characters
and no further than the end of a string (whose terminator counts as 0);
0 when there is no such pair. -/
def strncasecmp : List Char → List Char → Nat → Int
  | _, _, 0 => 0
  | [], [], _ + 1 => 0
  | [], b :: _, _ + 1 => 0 - ((tolower b).toNat : Int)
  | a :: _, [], _ + 1 => ((tolower a).toNat : Int)
  | a :: s, b :: t, n + 1 =>
    if tolower a = tolower b then strncasecmp s t n
    else ((tolower a).toNat : Int) - ((tolower b).toNat : Int)

/-- The C function `strcmp`, as far as the source uses it: is the result 0. -/
def strcmp_eq0 (s t : List Char) : Bool := s == t

/-- The loop `while ((token = strsep(&string, ",")) != NULL)`: every field of
the string between commas, in order, empty fields included.  A string with no
comma is one field. -/
def strsep_fields : List Char → List (List Char)
  | [] => [[]]
  | c :: cs =>
    if c = ',' then [] :: strsep_fields cs
    else
      match strsep_fields cs with
      | [] => [[c]]
      | t :: ts => (c :: t) :: ts

/-- Value of a run of decimal digits. -/
def digits_value (ds : List Char) : Nat :=
  ds.foldl (fun acc c => 10 * acc + (c.toNat - 48)) 0

/-- The sign a number starts with, if any, and the text after it. -/
def split_sign : List Char → Bool × List Char
  | [] => (false, [])
  | c :: r => if c = '-' then (true, r) else if c = '+' then (false, r) else (false, c :: r)

/-- Result of `strtol` on an optional sign and digits: saturated to `long`. -/
def strtol_value (neg : Bool) (ds : List Char) : Int :=
  let v : Int := if neg then -(digits_value ds : Int) else (digits_value ds : Int)
  max (-(2 ^ 63)) (min v (2 ^ 63 - 1))

/-- Result of `strtoul` on an optional sign and digits: saturated to
`unsigned long`, a leading minus negating the value in `unsigned long`. -/
def strtoul_value (neg : Bool) (ds : List Char) : Nat :=
  if digits_value ds ≥ 2 ^ 64 then 2 ^ 64 - 1
  else if neg then to_size_t (-(digits_value ds : Int)) else digits_value ds

/-- The call `sscanf(s, "%d", &x)`: `none` when it does not return 1 (nothing
is stored), else the `int` stored.  White space is skipped, an optional sign
and at least one digit are read; the number is converted as by `strtol` and
stored through an `int *`. -/
def sscanf_d (s : List Char) : Option Int :=
  let p := split_sign (s.dropWhile isspace)
  let ds := p.2.takeWhile isdigit
  if ds.isEmpty then none else some (to_int (strtol_value p.1 ds))

/-- The call `sscanf(s, "%u", &x)`: as `sscanf_d`, converted as by `strtoul`
and stored through an `unsigned int *`. -/
def sscanf_u (s : List Char) : Option Nat :=
  let p := split_sign (s.dropWhile isspace)
  let ds := p.2.takeWhile isdigit
  if ds.isEmpty then none else some (to_unsigned (strtoul_value p.1 ds))

/-- What a call `sscanf(s, "%<c>", p)` with one conversion does, `p` pointing
to an object of known size: it does not return 1 and stores nothing; or it
returns 1 and has stored `v` in the object; or it returns 1 and has written
past the end of the object, after which the C run is undefined. -/
inductive Scan (α : Type)
  | unmatched
  | stored (v : α)
  | overrun
  deriving DecidableEq, Repr

/-- A conversion that stores `bytes` bytes when it matches, through a pointer
to an object of `size` bytes. -/
def Scan.of_value {α : Type} (bytes size : Nat) : Option α → Scan α
  | none => .unmatched
  | some v => if bytes ≤ size then .stored v else .overrun

/-- The call `sscanf(s, "%d", p)` with `p` pointing to `size` bytes: an `int`
takes 4. -/
def scan_d (size : Nat) (s : List Char) : Scan Int := Scan.of_value 4 size (sscanf_d s)

/-- The call `sscanf(s, "%u", p)` with `p` pointing to `size` bytes: an
`unsigned int` takes 4. -/
def scan_u (size : Nat) (s : List Char) : Scan Nat := Scan.of_value 4 size (sscanf_u s)

/-- The call `sscanf(s, "%s", buf)` with `buf` an array of `size` bytes: white
space is skipped and the following run of non-space characters is stored with
a terminating NUL, however long the run is; the call does not return 1 when
there is no such run. -/
def sscanf_s (size : Nat) (s : List Char) : Scan (List Char) :=
  let w := (s.dropWhile isspace).takeWhile (fun c => !isspace c)
  if w.isEmpty then .unmatched else if w.length + 1 ≤ size then .stored w else .overrun

/-- What the embedding takes from outside the source file.
* `sscanf_f s` is the call `sscanf(s, "%f", &x)`: `none` when it does not
  return 1, else the `float` stored, as its 32-bit pattern;
* `H5Pset_filter_ok` says whether `H5Pset_filter` for filter 32013 returns a
  non-negative value (the filter plugin can be loaded);
* `cd_values` is the content of the local array `cd_values[10]`, which
  `make_dcpl` passes on without having assigned it. -/
structure Env where
  sscanf_f : List Char → Option Nat
  H5Pset_filter_ok : Bool
  cd_values : List Nat

/-- An environment for evaluating examples: no text reads as a `float`, the
zfp filter cannot be loaded. -/
def Env.plain : Env :=
  { sscanf_f := fun _ => none, H5Pset_filter_ok := false, cd_values := List.replicate 10 0 }

/-- The call `sscanf(s, "%f", p)` with `p` pointing to `size` bytes: a `float`
takes 4; the conversion itself is the environment's. -/
def scan_f (env : Env) (size : Nat) (s : List Char) : Scan Nat :=
  Scan.of_value 4 size (env.sscanf_f s)

/-- The function `get_tokval(src_str, token_to_match, val_ptr)`.  `sscanf` is
the conversion named by the last two characters of `token_to_match`, and
`size` the size in bytes of the object `val_ptr` points to.  The result
`unmatched` is the return value 0, with `*val_ptr` untouched; `stored v` is the
return value 1, with `v` stored to `*val_ptr`.  The first `sscanf` writes to
the local `char dummy[16]` and decides; the second stores the same value to
`*val_ptr`.  Either of them can write past the end of its destination
(`overrun`).  No call in the source passes a null `src_str` or
`token_to_match`. -/
def get_tokval {α : Type} (sscanf : Nat → List Char → Scan α) (size : Nat)
    (src_str token_to_match : List Char) : Scan α :=
  let toklen := token_to_match.length - 2
  if strncasecmp src_str token_to_match toklen ≠ 0 then .unmatched
  else
    match sscanf 16 (src_str.drop toklen) with
    | .unmatched => .unmatched
    | .overrun => .overrun
    | .stored _ => sscanf size (src_str.drop toklen)

/-! ## The dataset creation property list: `make_dcpl` -/

/-- HDF5 storage layouts the plugin selects. -/
inductive Layout
  | H5D_CONTIGUOUS
  | H5D_CHUNKED
  deriving DecidableEq, Repr

/-- One filter of a property list, with the arguments the library is given:
`H5Pset_shuffle`, `H5Pset_deflate(level)` with its `unsigned` level, or
`H5Pset_filter(id, flags, cd_nelmts, cd_values)`. -/
inductive Filter
  | shuffle
  | deflate (level : Nat)
  | generic (id : Nat) (flags : Nat) (cd_nelmts : Nat) (cd_values : List Nat)
  deriving DecidableEq, Repr

/-- A dataset creation property list as the plugin configures it.
* `filters` lists the filters the plugin has set, in order, each as passed to
  the library; a call of `H5Pset_shuffle` or `H5Pset_deflate`, whose result the
  plugin does not test, is listed whether or not the library accepts it;
* `pipeline` is the filter pipeline the list then holds in the library. -/
structure Dcpl where
  layout : Layout
  chunk : Option (List Nat)
  filters : List Filter
  pipeline : List Filter
  deriving DecidableEq, Repr

/-- The call `H5Pcreate(H5P_DATASET_CREATE)` followed by
`H5Pset_layout(retval, H5D_CONTIGUOUS)`. -/
def Dcpl.create : Dcpl :=
  { layout := .H5D_CONTIGUOUS, chunk := none, filters := [], pipeline := [] }

/-- The call `H5Pset_chunk(plist, ndims, dims)`: chunked layout with the given
chunk dimensions.  The call is taken to succeed: the dataspaces the plugin
builds in `write_mesh_part` have one to three dimensions, none of them 0. -/
def H5Pset_chunk (p : Dcpl) (dims : List Nat) : Dcpl :=
  { p with layout := .H5D_CHUNKED, chunk := some dims }

/-- The call `H5Pset_shuffle(plist)`: appends the shuffle filter. -/
def H5Pset_shuffle (p : Dcpl) : Dcpl :=
  { p with filters := p.filters ++ [.shuffle], pipeline := p.pipeline ++ [.shuffle] }

/-- The call `H5Pset_deflate(plist, level)`, whose parameter `level` is
`unsigned`.  The library accepts the levels 0 to 9 and appends the deflate
filter; for a level above 9 the call fails and the pipeline stays as it is,
which the plugin does not notice. -/
def H5Pset_deflate (p : Dcpl) (level : Nat) : Dcpl :=
  { p with
    filters := p.filters ++ [.deflate level]
    pipeline := if level ≤ 9 then p.pipeline ++ [.deflate level] else p.pipeline }

/-- The call `H5Pset_filter(plist, id, flags, cd_nelmts, cd_values)` when it
succeeds: appends the filter. -/
def H5Pset_filter (p : Dcpl) (id flags cd_nelmts : Nat) (cd_values : List Nat) : Dcpl :=
  { p with
    filters := p.filters ++ [.generic id flags cd_nelmts cd_values]
    pipeline := p.pipeline ++ [.generic id flags cd_nelmts cd_values] }

/-- The HDF5 constant `H5Z_FLAG_MANDATORY`. -/
def H5Z_FLAG_MANDATORY : Nat := 0

/-- The call `H5Sget_simple_extent_npoints(space_id)` for a simple dataspace
with the given dimensions. -/
def H5Sget_simple_extent_npoints (dims : List Nat) : Int := (dims.prod : Int)

/-- The local variables of `make_dcpl` that the parameter string sets, with
their initial values (`-1.0f` has the bit pattern `0xBF800000`).  The last
field is not a variable of the code: `overrun` says that a `get_tokval` call
has written past the end of `dummy` or of its destination; the C run is
undefined from there on and the other fields then say nothing about it. -/
structure Locals where
  shuffle : Int := -1
  minsize : Int := -1
  gzip_level : Int := -1
  zfp_precision : Int := -1
  szip_pixels_per_block : Nat := 0
  zfp_rate : Nat := 0xBF800000
  zfp_accuracy : Nat := 0xBF800000
  szip_method : List Char := []
  szip_chunk_str : List Char := []
  overrun : Bool := false
  deriving DecidableEq, Repr

/-- One turn of the `while` loop of `make_dcpl`: the chain of `get_tokval`
calls on one token, the first that returns 1 ending the turn (`continue`). -/
def parse_token (env : Env) (v : Locals) (token : List Char) : Locals :=
  match get_tokval scan_d 4 token "minsize=%d".toList with
  | .stored x => { v with minsize := x }
  | .overrun => { v with overrun := true }
  | .unmatched =>
  match get_tokval scan_d 4 token "shuffle=%d".toList with
  | .stored x => { v with shuffle := x }
  | .overrun => { v with overrun := true }
  | .unmatched =>
  match get_tokval scan_d 4 token "level=%d".toList with
  | .stored x => { v with gzip_level := x }
  | .overrun => { v with overrun := true }
  | .unmatched =>
  match get_tokval (scan_f env) 4 token "rate=%f".toList with
  | .stored x => { v with zfp_rate := x }
  | .overrun => { v with overrun := true }
  | .unmatched =>
  match get_tokval scan_d 4 token "precision=%d".toList with
  | .stored x => { v with zfp_precision := x }
  | .overrun => { v with overrun := true }
  | .unmatched =>
  match get_tokval (scan_f env) 4 token "accuracy=%f".toList with
  | .stored x => { v with zfp_accuracy := x }
  | .overrun => { v with overrun := true }
  | .unmatched =>
  match get_tokval sscanf_s 64 token "method=%s".toList with
  | .stored x => { v with szip_method := x }
  | .overrun => { v with overrun := true }
  | .unmatched =>
  match get_tokval scan_u 4 token "block=%u".toList with
  | .stored x => { v with szip_pixels_per_block := x }
  | .overrun => { v with overrun := true }
  | .unmatched =>
  match get_tokval sscanf_s 64 token "chunk=%s".toList with
  | .stored x => { v with szip_chunk_str := x }
  | .overrun => { v with overrun := true }
  | .unmatched => v

/-- The whole pass of `make_dcpl` through the parameter string. -/
def parse_params (env : Env) (params_str : List Char) : Locals :=
  (strsep_fields params_str).foldl (parse_token env) {}

/-- What a call of `make_dcpl` yields: the property list returned, the
warnings logged with `MACSIO_LOG_MSG(Warn, ...)` (severity `Warn` logs and
returns), and the function's static flag `have_issued_warning` after the
call.  With `overrun` set the parsing pass has written past the end of an
array: the C call is undefined and the other fields say nothing about it. -/
structure DcplResult where
  retval : Dcpl
  warnings : List String
  have_issued_warning : Bool
  overrun : Bool
  deriving DecidableEq, Repr

/-- The function `make_dcpl(alg_str, params_str, space_id, dtype_id)`.
`have_issued_warning` is the value of the function's static flag on entry;
`space_id` is given by the dimensions of the dataspace; `dtype_id` is not
used by the function.  The caller passes the static array
`compression_alg_str`, so `alg_str` is not null and the first test is on its
length.  The argument of `H5Pset_deflate` is converted to `unsigned`. -/
def make_dcpl (env : Env) (have_issued_warning : Bool)
    (alg_str params_str : List Char) (space_id : List Nat) : DcplResult :=
  let retval := Dcpl.create
  if alg_str.length = 0 then ⟨retval, [], have_issued_warning, false⟩
  else
    let v := parse_params env params_str
    let minsize : Int := if v.minsize ≠ -1 then v.minsize else 1024
    if H5Sget_simple_extent_npoints space_id < minsize then
      ⟨retval, [], have_issued_warning, v.overrun⟩
    else
      let retval := H5Pset_chunk retval space_id
      if strncasecmp alg_str "gzip".toList 4 = 0 then
        let retval :=
          if v.shuffle = -1 ∨ v.shuffle = 1 then H5Pset_shuffle retval else retval
        let retval :=
          H5Pset_deflate retval (to_unsigned (if v.gzip_level ≠ -1 then v.gzip_level else 9))
        ⟨retval, [], have_issued_warning, v.overrun⟩
      else if strncasecmp alg_str "zfp".toList 3 = 0 then
        if env.H5Pset_filter_ok then
          ⟨H5Pset_filter retval 32013 H5Z_FLAG_MANDATORY 10 env.cd_values, [],
            have_issued_warning, v.overrun⟩
        else
          ⟨retval, ["Unable to set up H5Z-ZFP compressor"], have_issued_warning, v.overrun⟩
      else if strncasecmp alg_str "szip".toList 4 = 0 then
        ⟨retval,
          if !have_issued_warning then ["szip compressor not available in this build"] else [],
          true, v.overrun⟩
      else ⟨retval, [], have_issued_warning, v.overrun⟩

/-! ## Choosing the output mode: `main_dump` -/

/-- The JSON value at `clargs/parallel_file_mode`: an array whose first two
elements are the mode string and the file count, or a plain string. -/
inductive ParallelFileMode
  | array (modestr : List Char) (filecnt : Int)
  | string (modestr : List Char)
  deriving DecidableEq, Repr

/-- How `main_dump` ends after its barrier and `process_args`: with the fatal
diagnostic, or with the call `main_dump_mif(main_obj, numFiles, dumpn, dumpt)`. -/
inductive MainDumpResult
  | die (msg : String)
  | main_dump_mif (numFiles : Int)
  deriving DecidableEq, Repr

/-- Modelled from the spec: `MACSIO_LOG_MSG(Die, ...)` (the macro is declared
in `macsio_log.h`, absent here) is the fatal diagnostic that fails the cycle
immediately; nothing after it runs. -/
def MACSIO_LOG_MSG_Die (msg : String) : MainDumpResult := .die msg

/-- The function `main_dump`, from the lookup of `clargs/parallel_file_mode`
on.  `mpi_size` is the value at `parallel/mpi_size`; `numFiles` is a local
declared without an initialiser, and `numFiles0` stands for whatever it holds
before the first assignment. -/
def main_dump (parfmode : ParallelFileMode) (mpi_size : Int) (numFiles0 : Int) :
    MainDumpResult :=
  match parfmode with
  | .array modestr filecnt =>
    if strcmp_eq0 modestr "SIF".toList then
      MACSIO_LOG_MSG_Die "HDF5_S3 plugin cannot currently handle SIF mode"
    else
      let numFiles := filecnt
      .main_dump_mif numFiles
  | .string modestr =>
    if strcmp_eq0 modestr "SIF".toList then
      MACSIO_LOG_MSG_Die "HDF5_S3 plugin cannot currently handle SIF mode"
    else
      let numFiles :=
        if strcmp_eq0 modestr "MIFMAX".toList then mpi_size
        else if strcmp_eq0 modestr "MIFAUTO".toList then numFiles0
        else numFiles0
      .main_dump_mif numFiles

/-! ## The completion callback: `responseCompleteCallback` -/

/-- The libs3 status `S3StatusOK`, the first enumerator of `S3Status`. -/
def S3StatusOK : Int := 0

/-- The libs3 struct `S3NameValue`. -/
structure S3NameValue where
  name : List Char
  value : List Char
  deriving DecidableEq, Repr

/-- The libs3 struct `S3ErrorDetails`.  A null `message`, `resource` or
`furtherDetails` is `none`; `extraDetails` lists the `extraDetailsCount`
entries of the array of that name. -/
structure S3ErrorDetails where
  message : Option (List Char)
  resource : Option (List Char)
  furtherDetails : Option (List Char)
  extraDetails : List S3NameValue
  deriving DecidableEq, Repr

/-- The call `snprintf(&errorDetailsG[len], sizeof(errorDetailsG) - len, ...)`
that would print `text`: the string the 4096-byte array `errorDetailsG` holds
afterwards.  With `len < 4096` the text goes to offset `len`, cut to the room
left for it and its terminator.  With `len = 4096` the size is 0 and nothing
is written.  With `len > 4096` the C call points outside the array; the array
itself is left as it is. -/
def snprintf_errorDetailsG (buf : List Char) (len : Nat) (text : List Char) : List Char :=
  if len < 4096 then buf.take len ++ text.take (4096 - len - 1) else buf

/-- The state `responseCompleteCallback` carries along: the content of
`errorDetailsG`, the local `len`, the local `flag`, and the lines printed to
standard output so far. -/
structure ErrorReport where
  errorDetailsG : List Char
  len : Nat
  flag : Bool
  stdout : List (List Char)
  deriving DecidableEq, Repr

/-- The statement `len += snprintf(&(errorDetailsG[len]), sizeof(errorDetailsG) - len, ...)`
printing `text`. -/
def ErrorReport.snprintf (r : ErrorReport) (text : List Char) : ErrorReport :=
  { r with
    errorDetailsG := snprintf_errorDetailsG r.errorDetailsG r.len text
    len := r.len + text.length }

/-- The statements `printf("%s\n", errorDetailsG); flag = 1;`. -/
def ErrorReport.printf_flag (r : ErrorReport) : ErrorReport :=
  { r with stdout := r.stdout ++ [r.errorDetailsG ++ ['\n']], flag := true }

/-- The `for` loop over `error->extraDetails`. -/
def ErrorReport.extra (r : ErrorReport) : List S3NameValue → ErrorReport
  | [] => r
  | nv :: rest =>
    ErrorReport.extra
      (r.snprintf ("    ".toList ++ nv.name ++ ": ".toList ++ nv.value ++ ['\n'])) rest

/-- What a call of `responseCompleteCallback` leaves: the globals `statusG`
and `errorDetailsG`, the lines printed, and `some 1` when the call ends in
`exit(1)`, `none` when it returns. -/
structure CompleteResult where
  statusG : Int
  errorDetailsG : List Char
  stdout : List (List Char)
  exit : Option Int
  deriving DecidableEq, Repr

/-- The function `responseCompleteCallback(status, error, callbackData)`.
`error` is `none` for a null pointer; `errorDetailsG0` is the content of the
global `errorDetailsG` on entry. -/
def responseCompleteCallback (status : Int) (error : Option S3ErrorDetails)
    (errorDetailsG0 : List Char) : CompleteResult :=
  let r0 : ErrorReport := { errorDetailsG := errorDetailsG0, len := 0, flag := false, stdout := [] }
  let r1 :=
    match error.bind (fun e => e.message) with
    | some m => (r0.snprintf ("  Message: ".toList ++ m ++ ['\n'])).printf_flag
    | none => r0
  let r2 :=
    match error.bind (fun e => e.resource) with
    | some m => (r1.snprintf ("  Resource: ".toList ++ m ++ ['\n'])).printf_flag
    | none => r1
  let r3 :=
    match error.bind (fun e => e.furtherDetails) with
    | some m => (r2.snprintf ("  Further Details: ".toList ++ m ++ ['\n'])).printf_flag
    | none => r2
  let r4 :=
    match error with
    | some e =>
      if e.extraDetails.length ≠ 0 then
        ((r3.snprintf "  Extra Details:\n".toList).extra e.extraDetails).printf_flag
      else r3
    | none => r3
  if r4.flag ∨ status ≠ S3StatusOK then
    { statusG := status
      errorDetailsG := r4.errorDetailsG
      stdout := r4.stdout ++ ["responseCompleteCallback() got a error, exit.\n\n".toList]
      exit := some 1 }
  else
    { statusG := status, errorDetailsG := r4.errorDetailsG, stdout := r4.stdout, exit := none }

/-! ## The object store client driving the data callback -/

/-- Successive calls of `putObjectDataCallback`, one for each requested
`bufferSize` of the list: the bytes each call copied into the buffer, in call
order, and the callback data after the last call. -/
def pull_seq (image : List UInt8) :
    List Int → put_object_callback_data → List (List UInt8) × put_object_callback_data
  | [], d => ([], d)
  | n :: ns, d =>
    let r := putObjectDataCallback image n d
    let rest := pull_seq image ns r.data
    (r.copied :: rest.1, rest.2)

/-! ## Successive calls of `make_dcpl` -/

/-- Successive calls of `make_dcpl`, one for each request (algorithm string,
parameter string, dataspace dimensions) of the list, the static flag
`have_issued_warning` going from each call to the next: the results in call
order. -/
def make_dcpl_seq (env : Env) :
    Bool → List (List Char × List Char × List Nat) → List DcplResult
  | _, [] => []
  | hw, (alg_str, params_str, space_id) :: rest =>
    let r := make_dcpl env hw alg_str params_str space_id
    r :: make_dcpl_seq env r.have_issued_warning rest

/-! ## The parameter string in memory: `strdup`, `strsep`, `free` -/

/-- Character arrays in memory: the allocation with number `p` holds the
characters `h[p]` (before its terminating NUL). -/
abbrev Heap := List (List Char)

/-- The call `strdup(s)` with `s` the string of allocation `p`: a new
allocation holding a copy, and its number. -/
def strdup (h : Heap) (p : Nat) : Heap × Nat := (h ++ [h.getD p []], h.length)

/-- The call `free(q)`: the allocation is gone. -/
def free (h : Heap) (q : Nat) : Heap := h.eraseIdx q

/-- The call `strsep(&string, ",")` with `string` at offset `i` of the array
`buf`: the token returned (the characters from offset `i` up to the next
comma or the end), the new value of `string` (`none` for a null pointer) and
the array afterwards, in which the comma found is overwritten with NUL. -/
def strsep (buf : List Char) (i : Nat) : List Char × Option Nat × List Char :=
  let tok := (buf.drop i).takeWhile (fun c => c != ',')
  if i + tok.length < buf.length then
    (tok, some (i + tok.length + 1), buf.set (i + tok.length) (Char.ofNat 0))
  else (tok, none, buf)

/-- The loop `while ((token = strsep(&string, ",")) != NULL) { ... }` of
`make_dcpl` on the array `buf`, run for at most `fuel` turns: the locals and
the array when `strsep` returns null, `none` if the turns run out first. -/
def strsep_loop (env : Env) :
    Nat → List Char → Option Nat → Locals → Option (Locals × List Char)
  | _, buf, none, v => some (v, buf)
  | 0, _, some _, _ => none
  | fuel + 1, buf, some i, v =>
    strsep_loop env fuel (strsep buf i).2.2 (strsep buf i).2.1
      (parse_token env v (strsep buf i).1)

/-- The lines of `make_dcpl` from `tofree = string = strdup(params_str)` to
`free(tofree)`, with `params_str` the allocation `p` of the heap `h`: the
locals after the loop and the heap after `free`.  The loop is given one turn
more than the string has characters.  The result is `none` also when a
`get_tokval` call of the loop has written past the end of an array: the state
of the memory is then undefined. -/
def parse_params_in_place (env : Env) (h : Heap) (p : Nat) : Option (Locals × Heap) :=
  let d := strdup h p
  let copy := d.1.getD d.2 []
  match strsep_loop env (copy.length + 1) copy (some 0) {} with
  | none => none
  | some (v, buf) => if v.overrun then none else some (v, free (d.1.set d.2 buf) d.2)

/-! ## One dump in MIF mode: `write_mesh_part`, `main_dump_mif` -/

/-- The character of a decimal digit. -/
def digit_char (k : Nat) : Char := Char.ofNat (48 + k)

/-- Decimal digits of `n`, most significant first, at most `fuel` of them. -/
def decimal_aux : Nat → Nat → List Char
  | 0, _ => []
  | fuel + 1, n =>
    if n < 10 then [digit_char n] else decimal_aux fuel (n / 10) ++ [digit_char (n % 10)]

/-- Decimal digits of the absolute value of an `int`, which has no more than
ten. -/
def decimal (n : Nat) : List Char := decimal_aux 10 n

/-- A digit string padded with zeros on the left to `width` characters. -/
def zero_pad (width : Nat) (ds : List Char) : List Char :=
  List.replicate (width - ds.length) '0' ++ ds

/-- The `printf` conversion `%0<width>d` of an `int`: the sign of a negative
value counts in the width. -/
def printf_0d (width : Nat) (v : Int) : List Char :=
  if v < 0 then '-' :: zero_pad (width - 1) (decimal v.natAbs) else zero_pad width (decimal v.toNat)

/-- The call `sprintf(fileName, "%s_hdf5s3_%05d_%03d.%s", filebase, group,
dumpn, fileext)` into `char fileName[256]`: the string printed, or `none`
when it and its terminator do not fit the array (the C call then writes
past its end). -/
def sprintf_fileName (filebase fileext : List Char) (group dumpn : Int) :
    Option (List Char) :=
  let text := filebase ++ "_hdf5s3_".toList ++ printf_0d 5 group ++ ['_'] ++
    printf_0d 3 dumpn ++ ['.'] ++ fileext
  if text.length < 256 then some text else none

/-- The call `snprintf(domain_dir, sizeof(domain_dir), "domain_%07d", ChunkID)`. -/
def snprintf_domain_dir (ChunkID : Int) : List Char :=
  "domain_".toList ++ printf_0d 7 ChunkID

/-- One entry of the `Vars` array of a mesh part, as far as the plugin reads
it: the name, the dimensions of the data array and whether its type is
`json_extarr_type_flt64`. -/
structure Var where
  name : List Char
  dims : List Nat
  flt64 : Bool
  deriving DecidableEq, Repr

/-- One entry of `problem/parts`: `Mesh/ChunkID` and the `Vars` array. -/
structure Part where
  ChunkID : Int
  Vars : List Var
  deriving DecidableEq, Repr

/-- The calls a dump makes to the libraries around it, and what it prints
(`print` on the standard output, `fprintf_stderr` on the standard error), in
the order made.  Timer calls are left out. -/
inductive Event
  | MACSIO_MIF_Init (numFiles : Int)
  | MACSIO_UTILS_RecordOutputFiles (dumpn : Int) (fileName : List Char)
  | MACSIO_MIF_WaitForBaton (fileName : List Char)
  | H5Gcreate1 (name : List Char)
  | H5Gclose (name : List Char)
  | H5Screate_simple (dims : List Nat)
  | MACSIO_LOG_MSG_Warn (msg : String)
  | H5Dcreate1 (loc : List Char) (name : List Char) (flt64 : Bool) (dims : List Nat)
      (dcpl : Dcpl)
  | H5Dwrite (loc : List Char) (name : List Char)
  | H5Dclose
  | H5Pclose
  | H5Sclose
  | H5Fflush
  | H5Fget_file_image_size
  | H5Fget_file_image
  | S3_initialize
  | S3_put_object (key : List Char) (contentLength : Nat) (sent : List UInt8)
  | print (text : List Char)
  | fprintf_stderr (text : List Char)
  | exit (code : Int)
  | MACSIO_MIF_HandOffBaton
  | MACSIO_MIF_Finish
  | S3_deinitialize
  deriving DecidableEq, Repr

/-- The function `write_mesh_part(h5loc, part_obj)`: the loop over the `Vars`
array, with its events and the static flag of `make_dcpl` afterwards.  `h5loc`
is given by the name of the group; the static flag goes from one call of
`make_dcpl` to the next.  The result is `none` when a call of `make_dcpl`
writes past the end of an array: the run is undefined from there. -/
def write_mesh_part (env : Env) (alg_str params_str : List Char) (h5loc : List Char) :
    Bool → List Var → Option (List Event × Bool)
  | hw, [] => some ([], hw)
  | hw, v :: vs =>
    let r := make_dcpl env hw alg_str params_str v.dims
    if r.overrun then none
    else
      match write_mesh_part env alg_str params_str h5loc r.have_issued_warning vs with
      | none => none
      | some rest =>
        some ([Event.H5Screate_simple v.dims] ++ r.warnings.map Event.MACSIO_LOG_MSG_Warn ++
          [Event.H5Dcreate1 h5loc v.name v.flt64 v.dims r.retval, Event.H5Dwrite h5loc v.name,
            Event.H5Dclose, Event.H5Pclose, Event.H5Sclose] ++ rest.1, rest.2)

/-- The loop of `main_dump_mif` over `problem/parts`; `none` when a call of
`write_mesh_part` is undefined. -/
def write_parts (env : Env) (alg_str params_str : List Char) :
    Bool → List Part → Option (List Event × Bool)
  | hw, [] => some ([], hw)
  | hw, p :: ps =>
    match write_mesh_part env alg_str params_str (snprintf_domain_dir p.ChunkID) hw p.Vars with
    | none => none
    | some w =>
      match write_parts env alg_str params_str w.2 ps with
      | none => none
      | some rest =>
        some ([Event.H5Gcreate1 (snprintf_domain_dir p.ChunkID)] ++ w.1 ++
          [Event.H5Gclose (snprintf_domain_dir p.ChunkID)] ++ rest.1, rest.2)

/-- What a dump is given and what the libraries around it answer.
* `group_rank` is the value of `MACSIO_MIF_RankOfGroup(bat, rank)`;
* `image` is the file image `H5Fget_file_image` delivers after the flush;
* `S3_initialize_status` is what `S3_initialize` returns, and
  `S3_status_name` what `S3_get_status_name` returns for that status;
* `requests` are the buffer sizes with which libs3 calls the data callback
  during `S3_put_object`, in order, and `status`, `error` what it passes to
  the completion callback at the end of the request;
* `compression_alg_str`, `compression_params_str`, `errorDetailsG` and
  `have_issued_warning` are the statics of those names on entry. -/
structure DumpInput where
  numFiles : Int
  dumpn : Int
  filebase : List Char
  fileext : List Char
  group_rank : Int
  parts : List Part
  image : List UInt8
  S3_initialize_status : Int
  S3_status_name : List Char
  requests : List Int
  status : Int
  error : Option S3ErrorDetails
  env : Env
  compression_alg_str : List Char
  compression_params_str : List Char
  errorDetailsG : List Char
  have_issued_warning : Bool

/-- The synchronous call `S3_put_object(&bucketContext, key, contentLength,
..., &putObjectHandler, &put_data)` of libs3, by its interface: it pulls the
body through `putObjectDataCallback` and ends the request with one call of
`responseCompleteCallback`.  The result is what the dump shows of it and the
exit code if the completion callback ends the process. -/
def S3_put_object (key : List Char) (contentLength : Nat) (image : List UInt8)
    (put_data : put_object_callback_data) (requests : List Int) (status : Int)
    (error : Option S3ErrorDetails) (errorDetailsG : List Char) :
    List Event × Option Int :=
  let sent := (pull_seq image requests put_data).1.flatten
  let done := responseCompleteCallback status error errorDetailsG
  ([Event.S3_put_object key contentLength sent] ++ done.stdout.map Event.print, done.exit)

/-- The function `S3_init()`: the call of `S3_initialize` and, when its status
is not `S3StatusOK`, the line `Failed to initialize libs3: <status name>` on
the standard error followed by `exit(-1)`.  The result is the events and
whether the process has ended. -/
def S3_init (status : Int) (status_name : List Char) : List Event × Bool :=
  if status ≠ S3StatusOK then
    ([Event.S3_initialize,
      Event.fprintf_stderr ("Failed to initialize libs3: ".toList ++ status_name ++ [Char.ofNat 10]),
      Event.exit (-1)], true)
  else ([Event.S3_initialize], false)

/-- The function `main_dump_mif(main_obj, numFiles, dumpn, dumpt)`: the
events of one call, up to and including an `exit`; `none` when the run is
undefined, because `fileName` overflows or because a call of `make_dcpl`
writes past the end of an array.  The HDF5 and MIF calls are taken to
succeed, as the code does not test them. -/
def main_dump_mif (x : DumpInput) : Option (List Event) :=
  match sprintf_fileName x.filebase x.fileext x.group_rank x.dumpn with
  | none => none
  | some fileName =>
    let head :=
      [Event.MACSIO_MIF_Init x.numFiles,
        Event.MACSIO_UTILS_RecordOutputFiles x.dumpn fileName,
        Event.MACSIO_MIF_WaitForBaton fileName]
    match write_parts x.env x.compression_alg_str x.compression_params_str
        x.have_issued_warning x.parts with
    | none => none
    | some parts =>
      let written := parts.1
      let image_size := x.image.length
      let put_data : put_object_callback_data := { data := 0, contentLength := image_size }
      let snapshot := [Event.H5Fflush, Event.H5Fget_file_image_size, Event.H5Fget_file_image]
      let init := S3_init x.S3_initialize_status x.S3_status_name
      if init.2 then some (head ++ written ++ snapshot ++ init.1)
      else
        let put := S3_put_object fileName image_size x.image put_data x.requests x.status
          x.error x.errorDetailsG
        match put.2 with
        | some code => some (head ++ written ++ snapshot ++ init.1 ++ put.1 ++ [Event.exit code])
        | none =>
          some (head ++ written ++ snapshot ++ init.1 ++ put.1 ++
            [Event.MACSIO_MIF_HandOffBaton, Event.MACSIO_MIF_Finish, Event.S3_deinitialize])

/-- Modelled from the spec: `MACSIO_MIF_Init`, `MACSIO_MIF_WaitForBaton` and
`MACSIO_MIF_HandOffBaton` are defined in `macsio_mif.c`, which is absent.
Where a worker stands in one dump cycle: blocked in `WaitForToken`, between
its return and `HandOff` (the section of `main_dump_mif` that writes and
uploads), or past `HandOff`. -/
inductive Phase
  | waiting
  | holding
  | done
  deriving DecidableEq, Repr

/-- Modelled from the spec: the state of the coordinator of one cycle
(section 4.1, `macsio_mif.c` absent).  `phase r` is where rank `r` stands;
`signal r` says that the point-to-point message "the token is available",
sent to rank `r` by the previous member of its chain, has arrived and is not
yet consumed; `acquired` lists the ranks in the order in which their
`WaitForToken` returned. -/
structure MifState where
  phase : Nat → Phase
  signal : Nat → Bool
  acquired : List Nat

/-- Modelled from the spec: `Init` (section 4.1, `macsio_mif.c` absent).
Every worker is about to wait, no message is under way.  Ranks are
partitioned into shards by `rank mod shardCount`, and a shard's chain is its
ranks in ascending order: the first member of a chain is the rank below
`shardCount`, the member after rank `r` is `r + shardCount`. -/
def MifState.init : MifState :=
  { phase := fun _ => .waiting, signal := fun _ => false, acquired := [] }

/-- Modelled from the spec: what a worker can do in a cycle (section 4.1,
`macsio_mif.c` absent): return from `WaitForToken`, or call `HandOff`. -/
inductive MifAction
  | wait_returns (rank : Nat)
  | hand_off (rank : Nat)
  deriving DecidableEq, Repr

/-- Modelled from the spec: one step of the cycle with `N` workers and `F`
shards (sections 4.1 and 5, `macsio_mif.c` absent).  `WaitForToken` of rank
`r` returns only when `r` is the current holder: it is the first member of
its chain, or the signal of the previous holder has arrived.  `HandOff` by
the holder signals the next member of the chain, if there is one.  A step
that is not possible in the state leaves it as it is. -/
def MifState.step (N F : Nat) (s : MifState) : MifAction → MifState
  | .wait_returns r =>
    if r < N ∧ s.phase r = .waiting ∧ (r < F ∨ s.signal r = true) then
      { phase := fun x => if x = r then .holding else s.phase x
        signal := fun x => if x = r then false else s.signal x
        acquired := s.acquired ++ [r] }
    else s
  | .hand_off r =>
    if r < N ∧ s.phase r = .holding then
      { phase := fun x => if x = r then .done else s.phase x
        signal := fun x => if r + F < N ∧ x = r + F then true else s.signal x
        acquired := s.acquired }
    else s

/-- Modelled from the spec: the state of a cycle after the workers have taken
the given steps, in the order given (`macsio_mif.c` absent). -/
def MifState.run (N F : Nat) (acts : List MifAction) : MifState :=
  acts.foldl (MifState.step N F) MifState.init

/-! ## The parsing pass, token by token

What `get_tokval` and the loop of `make_dcpl` do, said of the text of a token:
these definitions are compared with the code in the section on the option
parser. -/

/-- Does `s` begin with `pre`, letter case ignored. -/
def begins_with_ci (s pre : List Char) : Bool :=
  (s.take pre.length).map tolower == pre.map tolower

/-- The parameter keys of the compression request. -/
inductive ParamKey
  | minsize | shuffle | level | rate | precision | accuracy | method | block | chunk
  deriving DecidableEq, Repr

/-- A key followed by `=`: the text a token for that key begins with. -/
def ParamKey.text : ParamKey → List Char
  | .minsize => "minsize=".toList
  | .shuffle => "shuffle=".toList
  | .level => "level=".toList
  | .rate => "rate=".toList
  | .precision => "precision=".toList
  | .accuracy => "accuracy=".toList
  | .method => "method=".toList
  | .block => "block=".toList
  | .chunk => "chunk=".toList

/-- Every key. -/
def ParamKey.all : List ParamKey :=
  [.minsize, .shuffle, .level, .rate, .precision, .accuracy, .method, .block, .chunk]

/-- The text of a token after its key and the `=`. -/
def ParamKey.value (k : ParamKey) (t : List Char) : List Char := t.drop k.text.length

/-- What the code reads from a token for key `k` with the C conversion `conv`
(which wraps a number to its C type): the token begins with `k=` and the
conversion matches the text after it. -/
def token_read {α : Type} (conv : List Char → Option α) (k : ParamKey)
    (t : List Char) : Option α :=
  if begins_with_ci t k.text then conv (k.value t) else none

/-- The `int` the code has read for key `k` at the end of a parameter string:
that of the last token it reads for `k`, if there is one. -/
def last_read_int (k : ParamKey) (params : List Char) : Option Int :=
  ((strsep_fields params).filterMap (token_read sscanf_d k)).getLast?

/-- The threshold the code compares the element count with, from what it has
read for `minsize`. -/
def read_threshold (params : List Char) : Int :=
  match last_read_int .minsize params with
  | none => 1024
  | some m => if m = -1 then 1024 else m

/-- Whether the code asks for the shuffle filter, from what it has read for
`shuffle`. -/
def read_shuffle (params : List Char) : Bool :=
  match last_read_int .shuffle params with
  | none => true
  | some x => decide (x = -1 ∨ x = 1)

/-- The level the code passes to `H5Pset_deflate`, from what it has read for
`level`, before the conversion to `unsigned`. -/
def read_level (params : List Char) : Int :=
  match last_read_int .level params with
  | none => 9
  | some l => if l = -1 then 9 else l

/-- The first word of a text: it starts after the white space the text begins
with and ends before the next white space. -/
def first_word (v : List Char) : List Char :=
  (v.dropWhile isspace).takeWhile (fun c => !isspace c)

/-- The string the `%s` conversion reads when the word fits `dummy[16]`. -/
def read_word (v : List Char) : Option (List Char) :=
  if (first_word v).isEmpty then none
  else if (first_word v).length < 16 then some (first_word v) else none

/-! ## Vocabulary of the specification

These definitions speak of the text of a parameter string only; none of them
uses a conversion of `sscanf` or brings a number into a C type. -/

/-- The integer a text states: an optional sign, one or more decimal digits
and nothing else; the value is the integer so written, however large.  Any
other text states no integer. -/
def int_literal (s : List Char) : Option Int :=
  let p := split_sign s
  if !p.2.isEmpty && p.2.all isdigit then
    some (if p.1 then -(digits_value p.2 : Int) else (digits_value p.2 : Int))
  else none

/-- The integer a token gives to key `k`: the token begins with `k=` and the
text after it states an integer. -/
def stated_int (k : ParamKey) (t : List Char) : Option Int :=
  if begins_with_ci t k.text then int_literal (k.value t) else none

/-- The integer given by the last token of a parameter string that gives one
to key `k`, if there is such a token. -/
def last_stated_int (k : ParamKey) (params : List Char) : Option Int :=
  ((strsep_fields params).filterMap (stated_int k)).getLast?

/-- The `minsize` of the specification: the integer given by the `minsize=`
token, or 1024 when no such token is given. -/
def requested_minsize (params : List Char) : Int :=
  (last_stated_int .minsize params).getD 1024

/-- The threshold of the amended claims: as `requested_minsize`, except that a
`minsize=` token giving -1 also stands for 1024. -/
def effective_minsize (params : List Char) : Int :=
  match last_stated_int .minsize params with
  | none => 1024
  | some m => if m = -1 then 1024 else m

/-- The level of the amended claims: the integer given by the `level=` token,
with 9 when no such token is given or when it gives -1. -/
def effective_level (params : List Char) : Int :=
  match last_stated_int .level params with
  | none => 9
  | some l => if l = -1 then 9 else l

/-- Does a text start like a number: after white space and an optional sign
comes a decimal digit. -/
def starts_with_integer (v : List Char) : Bool :=
  match (split_sign (v.dropWhile isspace)).2 with
  | c :: _ => isdigit c
  | [] => false

/-- A token is plain for the integer key `k`: it does not begin with `k=`, or
the text after `k=` states an integer from -2^31 to 2^31 - 1, or that text
does not start like a number at all. -/
def plain_int_token (k : ParamKey) (t : List Char) : Bool :=
  !begins_with_ci t k.text ||
  match int_literal (k.value t) with
  | some n => decide (-(2 ^ 31) ≤ n ∧ n < 2 ^ 31)
  | none => !starts_with_integer (k.value t)

/-- Every token of the parameter string is plain for the integer key `k`. -/
def plain_int_tokens (k : ParamKey) (params : List Char) : Bool :=
  (strsep_fields params).all (plain_int_token k)

/-- The string value of a token is short: if the token begins with `method=`
or `chunk=`, the first word after the `=` has at most 15 characters. -/
def string_value_fits (t : List Char) : Bool :=
  (!begins_with_ci t ParamKey.method.text ||
    decide ((first_word (ParamKey.method.value t)).length < 16)) &&
  (!begins_with_ci t ParamKey.chunk.text ||
    decide ((first_word (ParamKey.chunk.value t)).length < 16))

/-- Every token of the parameter string has a short string value. -/
def string_values_fit (params : List Char) : Bool :=
  (strsep_fields params).all string_value_fits

/-- A request for gzip: the algorithm name starts with `gzip`, any letter case. -/
def is_gzip (alg : List Char) : Bool := begins_with_ci alg "gzip".toList

/-- A request for zfp: the algorithm name starts with `zfp`, any letter case. -/
def is_zfp (alg : List Char) : Bool := begins_with_ci alg "zfp".toList

/-- A request for szip: the algorithm name starts with `szip`, any letter case. -/
def is_szip (alg : List Char) : Bool := begins_with_ci alg "szip".toList

/-- The deflate levels in a list of filters, in order. -/
def deflate_levels (fs : List Filter) : List Nat :=
  fs.filterMap (fun f => match f with | .deflate l => some l | _ => none)

/-- Rank `r` is the current holder of its shard's token: it is in its
section, or its `WaitForToken` can return. -/
def holds_token (N F : Nat) (s : MifState) (r : Nat) : Prop :=
  r < N ∧ (s.phase r = .holding ∨ (s.phase r = .waiting ∧ (r < F ∨ s.signal r = true)))

/-- What holds of the coordinator's state throughout a cycle. -/
structure MifInv (N F : Nat) (s : MifState) : Prop where
  lower_done : ∀ r, s.phase r ≠ .waiting →
    r < N ∧ ∀ q, q < r → q % F = r % F → s.phase q = .done
  signal_from_done : ∀ r, s.signal r = true →
    F ≤ r ∧ r < N ∧ s.phase (r - F) = .done ∧ s.phase r = .waiting
  acquired_left : ∀ q ∈ s.acquired, s.phase q ≠ .waiting
  acquired_ascending : s.acquired.Pairwise (fun a b => a % F = b % F → a < b)
  next_signalled : ∀ r, r < N → s.phase r = .done → r + F < N →
    s.phase (r + F) ≠ .waiting ∨ s.signal (r + F) = true

/-! ## Theorems: the upload cursor -/

theorem to_size_t_of_nonneg (x : Int) (h0 : 0 ≤ x) (h : x < 2 ^ 64) :
    to_size_t x = x.toNat := by
  unfold to_size_t
  rw [Int.emod_eq_of_lt h0 h]

theorem to_int_of_small (n : Nat) (h : (n : Int) < 2 ^ 31) : to_int (n : Int) = n := by
  unfold to_int
  have h0 : (0 : Int) ≤ n := Int.ofNat_nonneg n
  have hm : (n : Int) % 2 ^ 32 = n := Int.emod_eq_of_lt h0 (by omega)
  simp only [hm]
  rw [if_pos h]

/-- One call with a request `N` in the `int` range, `0 ≤ N`, on a callback
data whose `contentLength` fits `size_t`: the return value, the next read
offset and the next `contentLength`. -/
theorem putObjectDataCallback_step (image : List UInt8) (N : Int)
    (d : put_object_callback_data)
    (hN0 : 0 ≤ N) (hN : N < 2 ^ 31) (hlen : d.contentLength < 2 ^ 64) :
    (putObjectDataCallback image N d).ret = ((min d.contentLength N.toNat : Nat) : Int) ∧
    (putObjectDataCallback image N d).copied
      = (image.drop d.data).take (min d.contentLength N.toNat) ∧
    (putObjectDataCallback image N d).data.data = d.data + min d.contentLength N.toNat ∧
    (putObjectDataCallback image N d).data.contentLength
      = d.contentLength - min d.contentLength N.toNat := by
  have hN64 : N < 2 ^ 64 := by omega
  have hsz : to_size_t N = N.toNat := to_size_t_of_nonneg N hN0 hN64
  unfold putObjectDataCallback memcpy
  by_cases hz : d.contentLength = 0
  · simp [hz, to_size_t]
  · simp only [ne_eq, hz, not_false_eq_true, if_true, hsz]
    by_cases hge : d.contentLength ≥ N.toNat
    · have hmin : min d.contentLength N.toNat = N.toNat := by omega
      simp only [hge, if_true, hmin, hsz]
      refine ⟨by omega, trivial, by omega, ?_⟩
      have : ((d.contentLength : Int) - ((N.toNat : Nat) : Int)) = ((d.contentLength - N.toNat : Nat) : Int) := by
        omega
      rw [this, to_size_t_of_nonneg _ (Int.ofNat_nonneg _) (by omega)]
      simp
    · have hmin : min d.contentLength N.toNat = d.contentLength := by omega
      have hsmall : (d.contentLength : Int) < 2 ^ 31 := by omega
      simp only [hge, if_false, hmin, to_int_of_small _ hsmall]
      refine ⟨trivial, trivial, by omega, ?_⟩
      rw [to_size_t_of_nonneg (d.contentLength : Int) (Int.ofNat_nonneg _) (by omega)]
      simp [to_size_t]

/-- After `k` calls that each ask for `B` bytes, `contentLength` is what is
left of `S` once `k * B` bytes are gone, and the values returned add up to
the bytes gone. -/
theorem pulls_closed_form (image : List UInt8) (B : Int) (hB0 : 0 ≤ B) (hB : B < 2 ^ 31) :
    ∀ (k : Nat) (d : put_object_callback_data), d.contentLength < 2 ^ 64 →
      (pulls image B k d).2.contentLength = d.contentLength - k * B.toNat ∧
      (pulls image B k d).1.sum = ((min d.contentLength (k * B.toNat) : Nat) : Int) := by
  intro k
  induction k with
  | zero => intro d _; simp [pulls]
  | succ k ih =>
    intro d hd
    obtain ⟨hret, _, _, hlen⟩ := putObjectDataCallback_step image B d hB0 hB hd
    have hd2 : (putObjectDataCallback image B d).data.contentLength < 2 ^ 64 := by
      rw [hlen]; omega
    obtain ⟨ih1, ih2⟩ := ih (putObjectDataCallback image B d).data hd2
    have hmul : (k + 1) * B.toNat = k * B.toNat + B.toNat := by ring
    simp only [pulls, List.sum_cons]
    rw [ih1, ih2, hret, hlen, hmul]
    constructor
    · omega
    · omega

/-- Enough calls of size `B ≥ 1` cover `S`: `⌈S / B⌉ * B ≥ S`. -/
theorem ceil_div_mul_ge (S b : Nat) (hb : 1 ≤ b) : S ≤ ((S + b - 1) / b) * b := by
  have h := Nat.div_add_mod (S + b - 1) b
  have hlt : (S + b - 1) % b < b := Nat.mod_lt _ (by omega)
  have hc : b * ((S + b - 1) / b) = ((S + b - 1) / b) * b := Nat.mul_comm _ _
  omega

/-- **C1.** For every callback data lying inside the image (`data` the read
offset, `contentLength` the bytes remaining, which fits `size_t`) and every
requested size `0 ≤ N` of type `int`, one call of `putObjectDataCallback`
copies exactly `min(remaining, N)` bytes, the ones of the image that start at
the read offset, returns that count, and leaves the read offset advanced and
`contentLength` decreased by exactly that count. -/
theorem putObjectDataCallback_copies_min (image : List UInt8) (N : Int)
    (d : put_object_callback_data)
    (hN0 : 0 ≤ N) (hN : N < 2 ^ 31) (hlen : d.contentLength < 2 ^ 64)
    (hin : d.data + d.contentLength ≤ image.length) :
    (putObjectDataCallback image N d).copied.length = min d.contentLength N.toNat ∧
    (putObjectDataCallback image N d).copied
      = (image.drop d.data).take (min d.contentLength N.toNat) ∧
    (putObjectDataCallback image N d).ret = ((min d.contentLength N.toNat : Nat) : Int) ∧
    (putObjectDataCallback image N d).data.data = d.data + min d.contentLength N.toNat ∧
    (putObjectDataCallback image N d).data.contentLength
      = d.contentLength - min d.contentLength N.toNat := by
  obtain ⟨hret, hcopy, hdata, hrem⟩ := putObjectDataCallback_step image N d hN0 hN hlen
  refine ⟨?_, hcopy, hret, hdata, hrem⟩
  rw [hcopy, List.length_take, List.length_drop]
  omega

/-- Witness for C1: a five-byte image, read offset 1, four bytes remaining,
a request for two bytes. -/
theorem putObjectDataCallback_copies_min_witness :
    (putObjectDataCallback [10, 20, 30, 40, 50] 2 ⟨1, 4⟩).copied.length = min 4 (2 : Int).toNat ∧
    (putObjectDataCallback [10, 20, 30, 40, 50] 2 ⟨1, 4⟩).copied
      = (([10, 20, 30, 40, 50] : List UInt8).drop 1).take (min 4 (2 : Int).toNat) ∧
    (putObjectDataCallback [10, 20, 30, 40, 50] 2 ⟨1, 4⟩).ret
      = ((min 4 (2 : Int).toNat : Nat) : Int) ∧
    (putObjectDataCallback [10, 20, 30, 40, 50] 2 ⟨1, 4⟩).data.data = 1 + min 4 (2 : Int).toNat ∧
    (putObjectDataCallback [10, 20, 30, 40, 50] 2 ⟨1, 4⟩).data.contentLength
      = 4 - min 4 (2 : Int).toNat :=
  putObjectDataCallback_copies_min [10, 20, 30, 40, 50] 2 ⟨1, 4⟩
    (by decide) (by decide) (by decide) (by decide)

/-- **C2.** For every image length `S` (a `size_t`) and every pull size
`1 ≤ B` (an `int`), calling `putObjectDataCallback` repeatedly with
`bufferSize = B` on callback data that start with `contentLength = S`:
every call made while `contentLength > 0` strictly decreases it; after
`⌈S / B⌉` calls, and after any larger number of calls, `contentLength` is 0;
and the values returned by those calls add up to exactly `S`. -/
theorem putObjectDataCallback_drains (image : List UInt8) (S : Nat) (B : Int) (off : Nat)
    (hS : S < 2 ^ 64) (hB1 : 1 ≤ B) (hB : B < 2 ^ 31) :
    (∀ k : Nat, 0 < (pulls image B k ⟨off, S⟩).2.contentLength →
        (pulls image B (k + 1) ⟨off, S⟩).2.contentLength
          < (pulls image B k ⟨off, S⟩).2.contentLength) ∧
    (∀ k : Nat, (S + B.toNat - 1) / B.toNat ≤ k →
        (pulls image B k ⟨off, S⟩).2.contentLength = 0 ∧
        (pulls image B k ⟨off, S⟩).1.sum = (S : Int)) := by
  have hB0 : 0 ≤ B := by omega
  have hb : 1 ≤ B.toNat := by omega
  have hcf := pulls_closed_form image B hB0 hB
  constructor
  · intro k hpos
    have h1 := (hcf k ⟨off, S⟩ hS).1
    have h2 := (hcf (k + 1) ⟨off, S⟩ hS).1
    have hmul : (k + 1) * B.toNat = k * B.toNat + B.toNat := by ring
    rw [h1] at hpos
    rw [h1, h2, hmul]
    simp only at hpos ⊢
    omega
  · intro k hk
    obtain ⟨h1, h2⟩ := hcf k ⟨off, S⟩ hS
    have hge : S ≤ k * B.toNat :=
      le_trans (ceil_div_mul_ge S B.toNat hb) (Nat.mul_le_mul_right _ hk)
    rw [h1, h2]
    simp only
    constructor
    · omega
    · congr 1; omega

/-- Witness for C2: five bytes drained two at a time, `⌈5 / 2⌉ = 3` calls. -/
theorem putObjectDataCallback_drains_witness :
    (∀ k : Nat, 0 < (pulls [1, 2, 3, 4, 5] 2 k ⟨0, 5⟩).2.contentLength →
        (pulls [1, 2, 3, 4, 5] 2 (k + 1) ⟨0, 5⟩).2.contentLength
          < (pulls [1, 2, 3, 4, 5] 2 k ⟨0, 5⟩).2.contentLength) ∧
    (∀ k : Nat, (5 + (2 : Int).toNat - 1) / (2 : Int).toNat ≤ k →
        (pulls [1, 2, 3, 4, 5] 2 k ⟨0, 5⟩).2.contentLength = 0 ∧
        (pulls [1, 2, 3, 4, 5] 2 k ⟨0, 5⟩).1.sum = ((5 : Nat) : Int)) :=
  putObjectDataCallback_drains [1, 2, 3, 4, 5] 5 2 0 (by decide) (by decide) (by decide)

/-! ## Theorems: the option parser -/

theorem strncasecmp_eq_zero_iff :
    ∀ (n : Nat) (s key : List Char), n ≤ key.length →
      (∀ c ∈ key.take n, (tolower c).toNat ≠ 0) →
      (strncasecmp s key n = 0 ↔ (s.take n).map tolower = (key.take n).map tolower) := by
  intro n
  induction n with
  | zero => intro s key _ _; simp [strncasecmp]
  | succ n ih =>
    intro s key hlen hnz
    cases key with
    | nil => simp at hlen
    | cons b t =>
      have hb : (tolower b).toNat ≠ 0 := hnz b (by simp)
      cases s with
      | nil =>
        simp only [strncasecmp, List.take_nil, List.map_nil, List.take_succ_cons, List.map_cons]
        constructor
        · intro h; omega
        · intro h; simp at h
      | cons a r =>
        have hlen2 : n ≤ t.length := by simpa using hlen
        have hnz2 : ∀ c ∈ t.take n, (tolower c).toNat ≠ 0 := by
          intro c hc
          exact hnz c (by simp [hc])
        simp only [strncasecmp, List.take_succ_cons, List.map_cons]
        by_cases hab : tolower a = tolower b
        · simp only [hab, if_true, ih r t hlen2 hnz2]
          simp
        · simp only [hab, if_false]
          constructor
          · intro h
            exfalso
            apply hab
            apply Char.ext
            apply UInt32.ext
            have : (tolower a).toNat = (tolower b).toNat := by omega
            exact this
          · intro h
            simp only [List.cons.injEq] at h
            exact absurd h.1 hab

theorem ParamKey.text_nonzero (k : ParamKey) : ∀ c ∈ k.text, (tolower c).toNat ≠ 0 := by
  cases k <;> decide

/-- What `get_tokval` computes for the format of key `k`, whose text is
`k=` followed by a two-character conversion: the key is compared letter case
ignored, the text after it is converted into `dummy[16]` and, if that stored a
value, into the destination. -/
theorem get_tokval_key {α : Type} (sscanf : Nat → List Char → Scan α) (size : Nat)
    (t : List Char) (k : ParamKey) (c1 c2 : Char) :
    get_tokval sscanf size t (k.text ++ [c1, c2]) =
      if begins_with_ci t k.text then
        match sscanf 16 (k.value t) with
        | .unmatched => .unmatched
        | .overrun => .overrun
        | .stored _ => sscanf size (k.value t)
      else .unmatched := by
  have hlen : (k.text ++ [c1, c2]).length - 2 = k.text.length := by simp
  have htake : (k.text ++ [c1, c2]).take k.text.length = k.text := by simp
  have hiff := strncasecmp_eq_zero_iff k.text.length t (k.text ++ [c1, c2]) (by simp)
    (by rw [htake]; exact k.text_nonzero)
  rw [htake] at hiff
  unfold get_tokval begins_with_ci ParamKey.value
  simp only [hlen]
  by_cases h : strncasecmp t (k.text ++ [c1, c2]) k.text.length = 0
  · have h2 := hiff.mp h
    simp [h, h2]
  · have h2 : ¬ ((t.take k.text.length).map tolower = k.text.map tolower) :=
      fun hh => h (hiff.mpr hh)
    rw [List.map_take] at h2
    simp [h, h2]

theorem Scan.of_value_none {α : Type} (bytes size : Nat) :
    Scan.of_value bytes size (none : Option α) = .unmatched := rfl

theorem Scan.of_value_some {α : Type} (v : α) :
    Scan.of_value 4 4 (some v) = .stored v := rfl

/-- For a number conversion, which needs 4 bytes, `get_tokval` stores what
the conversion reads after the key and never leaves its arrays. -/
theorem get_tokval_number {α : Type} (conv : List Char → Option α) (t : List Char)
    (k : ParamKey) (c1 c2 : Char) :
    get_tokval (fun size s => Scan.of_value 4 size (conv s)) 4 t (k.text ++ [c1, c2]) =
      Scan.of_value 4 4 (token_read conv k t) := by
  rw [get_tokval_key]
  unfold token_read
  by_cases hb : begins_with_ci t k.text = true
  · simp only [hb, if_true]
    cases conv (k.value t) <;> simp [Scan.of_value]
  · simp [hb, Scan.of_value]

theorem get_tokval_d (t : List Char) (k : ParamKey) (c1 c2 : Char) :
    get_tokval scan_d 4 t (k.text ++ [c1, c2]) = Scan.of_value 4 4 (token_read sscanf_d k t) := by
  have e : scan_d = fun size s => Scan.of_value 4 size (sscanf_d s) := rfl
  rw [e]
  exact get_tokval_number sscanf_d t k c1 c2

theorem get_tokval_u (t : List Char) (k : ParamKey) (c1 c2 : Char) :
    get_tokval scan_u 4 t (k.text ++ [c1, c2]) = Scan.of_value 4 4 (token_read sscanf_u k t) := by
  have e : scan_u = fun size s => Scan.of_value 4 size (sscanf_u s) := rfl
  rw [e]
  exact get_tokval_number sscanf_u t k c1 c2

theorem get_tokval_f (env : Env) (t : List Char) (k : ParamKey) (c1 c2 : Char) :
    get_tokval (scan_f env) 4 t (k.text ++ [c1, c2])
      = Scan.of_value 4 4 (token_read env.sscanf_f k t) := by
  have e : scan_f env = fun size s => Scan.of_value 4 size (env.sscanf_f s) := rfl
  rw [e]
  exact get_tokval_number env.sscanf_f t k c1 c2

/-- For the string conversion `get_tokval` stores the first word after the
key when it has at most 15 characters, and writes past the end of `dummy`
when it has more. -/
theorem get_tokval_string (t : List Char) (k : ParamKey) (c1 c2 : Char) :
    get_tokval sscanf_s 64 t (k.text ++ [c1, c2]) =
      if begins_with_ci t k.text then
        if (first_word (k.value t)).isEmpty then .unmatched
        else if (first_word (k.value t)).length < 16 then .stored (first_word (k.value t))
        else .overrun
      else .unmatched := by
  rw [get_tokval_key]
  by_cases hb : begins_with_ci t k.text = true
  · simp only [hb, if_true]
    unfold sscanf_s first_word
    generalize ((k.value t).dropWhile isspace).takeWhile (fun c => !isspace c) = w
    by_cases he : w.isEmpty = true
    · simp [he]
    · by_cases hl : w.length < 16
      · have h1 : w.length + 1 ≤ 16 := by omega
        have h2 : w.length + 1 ≤ 64 := by omega
        simp [he, hl, h1, h2]
      · have h1 : ¬ (w.length + 1 ≤ 16) := by omega
        simp [he, hl, h1]
  · simp [hb]

theorem begins_with_ci_head (t : List Char) (k : ParamKey)
    (h : begins_with_ci t k.text = true) :
    (t.map tolower).take 2 = (k.text.map tolower).take 2 := by
  unfold begins_with_ci at h
  have h1 : (t.take k.text.length).map tolower = k.text.map tolower := by simpa using h
  have h2 := congrArg (List.take 2) h1
  rw [List.map_take, List.take_take] at h2
  have hmin : min 2 k.text.length = 2 := by cases k <;> decide
  rw [hmin] at h2
  exact h2

/-- No token begins with two different keys. -/
theorem begins_with_ci_exclusive (t : List Char) (k k' : ParamKey)
    (h : begins_with_ci t k.text = true) (h' : begins_with_ci t k'.text = true) : k = k' := by
  have a := begins_with_ci_head t k h
  have b := begins_with_ci_head t k' h'
  rw [a] at b
  revert b
  cases k <;> cases k' <;> decide

/-- A token begins with no key, or with exactly one. -/
theorem begins_with_ci_cases (t : List Char) :
    (∀ k : ParamKey, begins_with_ci t k.text = false) ∨
    ∃ k : ParamKey, ∀ k' : ParamKey, begins_with_ci t k'.text = decide (k' = k) := by
  by_cases h : ∃ k : ParamKey, begins_with_ci t k.text = true
  · obtain ⟨k, hk⟩ := h
    right
    refine ⟨k, fun k' => ?_⟩
    by_cases hkk : k' = k
    · subst hkk; simp [hk]
    · simp only [hkk, decide_False]
      cases hb : begins_with_ci t k'.text with
      | false => rfl
      | true => exact absurd (begins_with_ci_exclusive t k' k hb hk) hkk
  · left
    intro k
    cases hb : begins_with_ci t k.text with
    | false => rfl
    | true => exact absurd ⟨k, hb⟩ h

/-- One turn of the parsing loop sets each local from what the token gives
the local's own key and leaves it alone when the token gives nothing; it
writes past the end of `dummy` when the token has a string value that is not
short. -/
theorem parse_token_eq (env : Env) (v : Locals) (t : List Char) :
    parse_token env v t =
      { shuffle := (token_read sscanf_d .shuffle t).getD v.shuffle
        minsize := (token_read sscanf_d .minsize t).getD v.minsize
        gzip_level := (token_read sscanf_d .level t).getD v.gzip_level
        zfp_precision := (token_read sscanf_d .precision t).getD v.zfp_precision
        szip_pixels_per_block := (token_read sscanf_u .block t).getD v.szip_pixels_per_block
        zfp_rate := (token_read env.sscanf_f .rate t).getD v.zfp_rate
        zfp_accuracy := (token_read env.sscanf_f .accuracy t).getD v.zfp_accuracy
        szip_method := (token_read read_word .method t).getD v.szip_method
        szip_chunk_str := (token_read read_word .chunk t).getD v.szip_chunk_str
        overrun := v.overrun || !string_value_fits t } := by
  have e1 : "minsize=%d".toList = ParamKey.minsize.text ++ ['%', 'd'] := rfl
  have e2 : "shuffle=%d".toList = ParamKey.shuffle.text ++ ['%', 'd'] := rfl
  have e3 : "level=%d".toList = ParamKey.level.text ++ ['%', 'd'] := rfl
  have e4 : "rate=%f".toList = ParamKey.rate.text ++ ['%', 'f'] := rfl
  have e5 : "precision=%d".toList = ParamKey.precision.text ++ ['%', 'd'] := rfl
  have e6 : "accuracy=%f".toList = ParamKey.accuracy.text ++ ['%', 'f'] := rfl
  have e7 : "method=%s".toList = ParamKey.method.text ++ ['%', 's'] := rfl
  have e8 : "block=%u".toList = ParamKey.block.text ++ ['%', 'u'] := rfl
  have e9 : "chunk=%s".toList = ParamKey.chunk.text ++ ['%', 's'] := rfl
  unfold parse_token
  simp only [e1, e2, e3, e4, e5, e6, e7, e8, e9, get_tokval_d, get_tokval_u, get_tokval_f,
    get_tokval_string]
  rcases begins_with_ci_cases t with h | ⟨k, h⟩
  · simp [token_read, string_value_fits, h, Scan.of_value_none]
  · cases k
    all_goals simp only [token_read, string_value_fits, h]
    all_goals simp [Scan.of_value_none]
    case minsize => cases sscanf_d (ParamKey.minsize.value t) <;> rfl
    case shuffle => cases sscanf_d (ParamKey.shuffle.value t) <;> rfl
    case level => cases sscanf_d (ParamKey.level.value t) <;> rfl
    case rate => cases env.sscanf_f (ParamKey.rate.value t) <;> rfl
    case precision => cases sscanf_d (ParamKey.precision.value t) <;> rfl
    case accuracy => cases env.sscanf_f (ParamKey.accuracy.value t) <;> rfl
    case block => cases sscanf_u (ParamKey.block.value t) <;> rfl
    case method =>
      unfold read_word
      by_cases he : first_word (ParamKey.method.value t) = []
      · simp [he]
      · by_cases hl : (first_word (ParamKey.method.value t)).length < 16
        · simp [he, hl]
        · simp [he, hl]
    case chunk =>
      unfold read_word
      by_cases he : first_word (ParamKey.chunk.value t) = []
      · simp [he]
      · by_cases hl : (first_word (ParamKey.chunk.value t)).length < 16
        · simp [he, hl]
        · simp [he, hl]

theorem foldl_getD_getLast? {σ τ α : Type} (step : σ → τ → σ) (proj : σ → α)
    (f : τ → Option α) (h : ∀ v t, proj (step v t) = (f t).getD (proj v)) :
    ∀ (toks : List τ) (v : σ),
      proj (toks.foldl step v) = ((toks.filterMap f).getLast?).getD (proj v) := by
  intro toks
  induction toks with
  | nil => intro v; simp
  | cons t ts ih =>
    intro v
    rw [List.foldl_cons, ih (step v t), h v t]
    cases hf : f t with
    | none => simp [List.filterMap_cons, hf]
    | some x => simp [List.filterMap_cons, hf, List.getLast?_cons]

/-- After the pass through the parameter string, `minsize` holds the `int` of
the last `minsize=` token the code reads, or its initial -1. -/
theorem parse_params_minsize (env : Env) (params : List Char) :
    (parse_params env params).minsize = (last_read_int .minsize params).getD (-1) := by
  unfold parse_params last_read_int
  exact foldl_getD_getLast? (parse_token env) Locals.minsize (token_read sscanf_d .minsize)
    (fun v t => by rw [parse_token_eq]) _ _

/-- After the pass through the parameter string, `shuffle` holds the `int` of
the last `shuffle=` token the code reads, or its initial -1. -/
theorem parse_params_shuffle (env : Env) (params : List Char) :
    (parse_params env params).shuffle = (last_read_int .shuffle params).getD (-1) := by
  unfold parse_params last_read_int
  exact foldl_getD_getLast? (parse_token env) Locals.shuffle (token_read sscanf_d .shuffle)
    (fun v t => by rw [parse_token_eq]) _ _

/-- After the pass through the parameter string, `gzip_level` holds the `int`
of the last `level=` token the code reads, or its initial -1. -/
theorem parse_params_gzip_level (env : Env) (params : List Char) :
    (parse_params env params).gzip_level = (last_read_int .level params).getD (-1) := by
  unfold parse_params last_read_int
  exact foldl_getD_getLast? (parse_token env) Locals.gzip_level (token_read sscanf_d .level)
    (fun v t => by rw [parse_token_eq]) _ _

theorem foldl_parse_token_overrun (env : Env) :
    ∀ (toks : List (List Char)) (v : Locals),
      (toks.foldl (parse_token env) v).overrun = (v.overrun || !toks.all string_value_fits) := by
  intro toks
  induction toks with
  | nil => intro v; simp
  | cons t ts ih =>
    intro v
    rw [List.foldl_cons, ih (parse_token env v t), parse_token_eq, List.all_cons]
    cases v.overrun <;> cases string_value_fits t <;> simp

/-- The pass through the parameter string writes past the end of an array
exactly when some token has a string value that is not short. -/
theorem parse_params_overrun (env : Env) (params : List Char) :
    (parse_params env params).overrun = !string_values_fit params := by
  unfold parse_params string_values_fit
  rw [foldl_parse_token_overrun]
  rfl

/-- The threshold `make_dcpl` computes from its local `minsize`. -/
theorem minsize_threshold (env : Env) (params : List Char) :
    (if (parse_params env params).minsize ≠ -1 then (parse_params env params).minsize
      else (1024 : Int)) = read_threshold params := by
  rw [parse_params_minsize]
  unfold read_threshold
  cases last_read_int .minsize params with
  | none => simp
  | some m => by_cases hm : m = -1 <;> simp [hm]

/-- The level `make_dcpl` computes from its local `gzip_level`. -/
theorem gzip_level_read (env : Env) (params : List Char) :
    (if (parse_params env params).gzip_level ≠ -1 then (parse_params env params).gzip_level
      else (9 : Int)) = read_level params := by
  rw [parse_params_gzip_level]
  unfold read_level
  cases last_read_int .level params with
  | none => simp
  | some m => by_cases hm : m = -1 <;> simp [hm]

/-- The test `make_dcpl` makes on its local `shuffle`. -/
theorem shuffle_read (env : Env) (params : List Char) :
    ((parse_params env params).shuffle = -1 ∨ (parse_params env params).shuffle = 1)
      ↔ read_shuffle params = true := by
  rw [parse_params_shuffle]
  unfold read_shuffle
  cases last_read_int .shuffle params with
  | none => simp
  | some m => simp

theorem npoints_nonneg (shape : List Nat) : 0 ≤ H5Sget_simple_extent_npoints shape := by
  unfold H5Sget_simple_extent_npoints
  exact Int.ofNat_nonneg _

theorem strncasecmp_gzip (alg : List Char) :
    strncasecmp alg "gzip".toList 4 = 0 ↔ is_gzip alg = true := by
  have h := strncasecmp_eq_zero_iff 4 alg "gzip".toList (by decide) (by decide)
  rw [h]
  unfold is_gzip begins_with_ci
  simp

theorem strncasecmp_zfp (alg : List Char) :
    strncasecmp alg "zfp".toList 3 = 0 ↔ is_zfp alg = true := by
  have h := strncasecmp_eq_zero_iff 3 alg "zfp".toList (by decide) (by decide)
  rw [h]
  unfold is_zfp begins_with_ci
  simp

theorem strncasecmp_szip (alg : List Char) :
    strncasecmp alg "szip".toList 4 = 0 ↔ is_szip alg = true := by
  have h := strncasecmp_eq_zero_iff 4 alg "szip".toList (by decide) (by decide)
  rw [h]
  unfold is_szip begins_with_ci
  simp

/-- The function `make_dcpl` branch by branch, in terms of what the parsing
pass has read from the parameter string. -/
theorem make_dcpl_eq (env : Env) (hw : Bool) (alg params : List Char) (shape : List Nat) :
    make_dcpl env hw alg params shape =
      if alg = [] then ⟨⟨.H5D_CONTIGUOUS, none, [], []⟩, [], hw, false⟩
      else if H5Sget_simple_extent_npoints shape < read_threshold params then
        ⟨⟨.H5D_CONTIGUOUS, none, [], []⟩, [], hw, !string_values_fit params⟩
      else if is_gzip alg then
        ⟨⟨.H5D_CHUNKED, some shape,
            (if read_shuffle params then [Filter.shuffle] else []) ++
              [Filter.deflate (to_unsigned (read_level params))],
            (if read_shuffle params then [Filter.shuffle] else []) ++
              (if to_unsigned (read_level params) ≤ 9 then
                [Filter.deflate (to_unsigned (read_level params))] else [])⟩,
          [], hw, !string_values_fit params⟩
      else if is_zfp alg then
        if env.H5Pset_filter_ok then
          ⟨⟨.H5D_CHUNKED, some shape, [.generic 32013 H5Z_FLAG_MANDATORY 10 env.cd_values],
              [.generic 32013 H5Z_FLAG_MANDATORY 10 env.cd_values]⟩,
            [], hw, !string_values_fit params⟩
        else
          ⟨⟨.H5D_CHUNKED, some shape, [], []⟩, ["Unable to set up H5Z-ZFP compressor"], hw,
            !string_values_fit params⟩
      else if is_szip alg then
        ⟨⟨.H5D_CHUNKED, some shape, [], []⟩,
          if !hw then ["szip compressor not available in this build"] else [], true,
          !string_values_fit params⟩
      else ⟨⟨.H5D_CHUNKED, some shape, [], []⟩, [], hw, !string_values_fit params⟩ := by
  unfold make_dcpl
  simp only [minsize_threshold, gzip_level_read, shuffle_read, strncasecmp_gzip,
    strncasecmp_zfp, strncasecmp_szip, parse_params_overrun]
  by_cases ha : alg = []
  · simp [ha, Dcpl.create]
  · have hlen : ¬ alg.length = 0 := by simpa using ha
    simp only [hlen, ha, if_false]
    by_cases hsmall : H5Sget_simple_extent_npoints shape < read_threshold params
    · simp [hsmall, Dcpl.create]
    · simp only [hsmall, if_false]
      by_cases hg : is_gzip alg = true
      · simp only [hg, if_true]
        by_cases hs : read_shuffle params = true <;>
          by_cases hl : to_unsigned (read_level params) ≤ 9 <;>
          simp [hs, hl, H5Pset_deflate, H5Pset_shuffle, H5Pset_chunk, Dcpl.create]
      · simp only [hg, if_false]
        by_cases hz : is_zfp alg = true
        · simp [hz, H5Pset_filter, H5Pset_chunk, Dcpl.create]
        · simp [hz, H5Pset_chunk, Dcpl.create]

/-! ## Theorems: the text of a token and what the code reads from it -/

theorem to_int_of_range (n : Int) (h1 : -(2 ^ 31) ≤ n) (h2 : n < 2 ^ 31) : to_int n = n := by
  unfold to_int
  simp only
  by_cases hn : 0 ≤ n
  · have hm : n % 2 ^ 32 = n := Int.emod_eq_of_lt hn (by omega)
    rw [hm, if_pos h2]
  · have hm : n % 2 ^ 32 = n + 2 ^ 32 := by
      have h3 : (n + 2 ^ 32) % 2 ^ 32 = n + 2 ^ 32 := Int.emod_eq_of_lt (by omega) (by omega)
      rw [← h3]
      simp
    rw [hm]
    have h4 : ¬ (n + 2 ^ 32 < 2 ^ 31) := by omega
    rw [if_neg h4]
    omega

theorem isdigit_not_isspace (c : Char) (h : isdigit c = true) : isspace c = false := by
  unfold isdigit at h
  unfold isspace
  simp only [Bool.and_eq_true, decide_eq_true_eq] at h
  have h1 : ¬ c.toNat = 32 := by omega
  have h2 : ¬ c.toNat ≤ 13 := by omega
  simp [h1, h2]

theorem takeWhile_of_all (p : Char → Bool) (l : List Char) (h : l.all p = true) :
    l.takeWhile p = l := by
  induction l with
  | nil => rfl
  | cons c r ih =>
    simp only [List.all_cons, Bool.and_eq_true] at h
    simp [List.takeWhile_cons, h.1, ih h.2]

/-- A text that states an integer begins with no white space. -/
theorem int_literal_dropWhile (s : List Char) (n : Int) (h : int_literal s = some n) :
    s.dropWhile isspace = s := by
  unfold int_literal at h
  cases s with
  | nil => rfl
  | cons c r =>
    have hc : isspace c = false := by
      by_cases h1 : c = '-'
      · subst h1; decide
      · by_cases h2 : c = '+'
        · subst h2; decide
        · simp only [split_sign, h1, h2, if_false] at h
          by_cases hd : isdigit c = true
          · exact isdigit_not_isspace c hd
          · simp [hd] at h
    simp [List.dropWhile_cons, hc]

/-- On a text that states an integer from -2^31 to 2^31 - 1 the conversion
`%d` reads that integer. -/
theorem sscanf_d_int_literal (s : List Char) (n : Int) (h : int_literal s = some n)
    (h1 : -(2 ^ 31) ≤ n) (h2 : n < 2 ^ 31) : sscanf_d s = some n := by
  have hdrop := int_literal_dropWhile s n h
  unfold int_literal at h
  unfold sscanf_d
  simp only [hdrop]
  generalize split_sign s = p at h
  by_cases hok : (!p.2.isEmpty && p.2.all isdigit) = true
  · simp only [hok, if_true, Option.some.injEq] at h
    simp only [Bool.and_eq_true, Bool.not_eq_true', List.isEmpty_eq_false] at hok
    have htw := takeWhile_of_all isdigit p.2 hok.2
    have hne : p.2.isEmpty = false := by
      cases hp : p.2 with
      | nil => exact absurd hp hok.1
      | cons _ _ => rfl
    simp only [htw, hne, Bool.false_eq_true, if_false, Option.some.injEq]
    unfold strtol_value
    simp only
    rw [h]
    have e1 : min n (2 ^ 63 - 1) = n := by omega
    rw [e1]
    have e2 : max (-(2 ^ 63)) n = n := by omega
    rw [e2]
    exact to_int_of_range n h1 h2
  · simp [hok] at h

/-- On a text that does not start like a number the conversions `%d` and `%u`
read nothing. -/
theorem sscanf_not_number (s : List Char) (h : starts_with_integer s = false) :
    sscanf_d s = none ∧ sscanf_u s = none := by
  unfold starts_with_integer at h
  unfold sscanf_d sscanf_u
  simp only
  generalize (split_sign (s.dropWhile isspace)) = p at h
  cases hp : p.2 with
  | nil => simp
  | cons c r =>
    rw [hp] at h
    simp only at h
    simp [List.takeWhile_cons, h]

/-- A text that does not start like a number states no integer. -/
theorem int_literal_not_number (s : List Char) (h : starts_with_integer s = false) :
    int_literal s = none := by
  cases hlit : int_literal s with
  | none => rfl
  | some n =>
    exfalso
    have hdrop := int_literal_dropWhile s n hlit
    unfold starts_with_integer at h
    unfold int_literal at hlit
    rw [hdrop] at h
    generalize split_sign s = p at h hlit
    cases hp : p.2 with
    | nil => simp [hp] at hlit
    | cons c r =>
      rw [hp] at h
      simp only at h
      simp only [hp, List.all_cons, h, Bool.false_and, Bool.and_false, Bool.false_eq_true,
        if_false] at hlit
      exact Option.noConfusion hlit

/-- From a token that is plain for the integer key `k` the code reads the
integer the token gives to `k`. -/
theorem token_read_plain (k : ParamKey) (t : List Char) (h : plain_int_token k t = true) :
    token_read sscanf_d k t = stated_int k t := by
  unfold token_read stated_int
  unfold plain_int_token at h
  by_cases hb : begins_with_ci t k.text = true
  · simp only [hb, if_true]
    simp only [hb, Bool.not_true, Bool.false_or] at h
    cases hlit : int_literal (k.value t) with
    | none =>
      rw [hlit] at h
      simp only [Bool.not_eq_true'] at h
      exact (sscanf_not_number _ h).1
    | some n =>
      rw [hlit] at h
      simp only [decide_eq_true_eq] at h
      exact sscanf_d_int_literal _ n hlit h.1 h.2
  · simp [hb]

/-- In a parameter string whose tokens are plain for the integer key `k` the
code reads for `k` the integer the string gives to `k`. -/
theorem last_read_int_plain (k : ParamKey) (params : List Char)
    (h : plain_int_tokens k params = true) :
    last_read_int k params = last_stated_int k params := by
  unfold last_read_int last_stated_int
  unfold plain_int_tokens at h
  rw [List.all_eq_true] at h
  congr 1
  apply List.filterMap_congr
  intro t ht
  exact token_read_plain k t (h t ht)

theorem read_threshold_plain (params : List Char)
    (h : plain_int_tokens .minsize params = true) :
    read_threshold params = effective_minsize params := by
  unfold read_threshold effective_minsize
  rw [last_read_int_plain _ _ h]

theorem read_level_plain (params : List Char)
    (h : plain_int_tokens .level params = true) :
    read_level params = effective_level params := by
  unfold read_level effective_level
  rw [last_read_int_plain _ _ h]

/-- Below the specification's `minsize` is below the threshold. -/
theorem lt_effective_of_lt_requested (params : List Char) (shape : List Nat)
    (h : H5Sget_simple_extent_npoints shape < requested_minsize params) :
    H5Sget_simple_extent_npoints shape < effective_minsize params := by
  have h0 := npoints_nonneg shape
  unfold requested_minsize at h
  unfold effective_minsize
  cases hl : last_stated_int .minsize params with
  | none => simpa [hl] using h
  | some m =>
    rw [hl] at h
    simp only [Option.getD_some] at h
    by_cases hm : m = -1
    · omega
    · simpa [hm] using h

/-- The result of `make_dcpl` for a parameter string whose `minsize=` tokens
are plain and whose string values are short: no array is overrun, and the
threshold is the one the string states. -/
theorem make_dcpl_plain (env : Env) (hw : Bool) (alg params : List Char) (shape : List Nat)
    (hplain : plain_int_tokens .minsize params = true)
    (hfit : string_values_fit params = true) :
    make_dcpl env hw alg params shape =
      if alg = [] ∨ H5Sget_simple_extent_npoints shape < effective_minsize params then
        ⟨⟨.H5D_CONTIGUOUS, none, [], []⟩, [], hw, false⟩
      else if is_gzip alg then
        ⟨⟨.H5D_CHUNKED, some shape,
            (if read_shuffle params then [Filter.shuffle] else []) ++
              [Filter.deflate (to_unsigned (read_level params))],
            (if read_shuffle params then [Filter.shuffle] else []) ++
              (if to_unsigned (read_level params) ≤ 9 then
                [Filter.deflate (to_unsigned (read_level params))] else [])⟩,
          [], hw, false⟩
      else if is_zfp alg then
        if env.H5Pset_filter_ok then
          ⟨⟨.H5D_CHUNKED, some shape, [.generic 32013 H5Z_FLAG_MANDATORY 10 env.cd_values],
              [.generic 32013 H5Z_FLAG_MANDATORY 10 env.cd_values]⟩,
            [], hw, false⟩
        else
          ⟨⟨.H5D_CHUNKED, some shape, [], []⟩, ["Unable to set up H5Z-ZFP compressor"], hw,
            false⟩
      else if is_szip alg then
        ⟨⟨.H5D_CHUNKED, some shape, [], []⟩,
          if !hw then ["szip compressor not available in this build"] else [], true, false⟩
      else ⟨⟨.H5D_CHUNKED, some shape, [], []⟩, [], hw, false⟩ := by
  rw [make_dcpl_eq, read_threshold_plain params hplain, hfit]
  by_cases ha : alg = []
  · simp [ha]
  · by_cases hsmall : H5Sget_simple_extent_npoints shape < effective_minsize params
    · simp [ha, hsmall]
    · simp [ha, hsmall]

/-- With short string values no call of `make_dcpl` overruns an array. -/
theorem make_dcpl_overrun (env : Env) (hw : Bool) (alg params : List Char) (shape : List Nat)
    (hfit : string_values_fit params = true) :
    (make_dcpl env hw alg params shape).overrun = false := by
  rw [make_dcpl_eq, hfit]
  by_cases ha : alg = []
  · simp [ha]
  · simp only [ha, if_false]
    split
    · rfl
    · split
      · rfl
      · split
        · split <;> rfl
        · split <;> rfl

/-! ## Theorems: tokens that leave the plan alone -/

theorem strsep_fields_no_comma (t : List Char) (h : ',' ∉ t) : strsep_fields t = [t] := by
  induction t with
  | nil => rfl
  | cons c r ih =>
    have hc : c ≠ ',' := fun e => h (by simp [e])
    have hr : ',' ∉ r := fun e => h (by simp [e])
    simp [strsep_fields, hc, ih hr]

theorem strsep_fields_append_comma (t rest : List Char) (h : ',' ∉ t) :
    strsep_fields (t ++ ',' :: rest) = t :: strsep_fields rest := by
  induction t with
  | nil => simp [strsep_fields]
  | cons c r ih =>
    have hc : c ≠ ',' := fun e => h (by simp [e])
    have hr : ',' ∉ r := fun e => h (by simp [e])
    simp [strsep_fields, hc, ih hr]

/-- Counterexample to C3 as stated: the token `minsize=4294967295` gives the
integer 4294967295 and an array of 2000 elements is smaller than it, yet the
gzip request gets chunked layout, a chunk shape and both filters.  The local
`minsize` is an `int`, in which the conversion leaves -1.  And with
`minsize=5000,method=` followed by 24 letters on a 40 by 50 array, which is
smaller than 5000, `get_tokval` writes past the end of `dummy[16]`. -/
theorem make_dcpl_minsize_out_of_range :
    requested_minsize "minsize=4294967295".toList = 4294967295 ∧
    H5Sget_simple_extent_npoints [2000] < requested_minsize "minsize=4294967295".toList ∧
    (make_dcpl Env.plain false "gzip".toList "minsize=4294967295".toList [2000]).overrun
      = false ∧
    (make_dcpl Env.plain false "gzip".toList "minsize=4294967295".toList [2000]).retval
      = { layout := .H5D_CHUNKED, chunk := some [2000], filters := [.shuffle, .deflate 9],
          pipeline := [.shuffle, .deflate 9] } ∧
    (parse_params Env.plain "minsize=4294967295".toList).minsize = -1 ∧
    H5Sget_simple_extent_npoints [40, 50]
      < requested_minsize "minsize=5000,method=aaaaaaaaaaaaaaaaaaaaaaaa".toList ∧
    (make_dcpl Env.plain false "gzip".toList
      "minsize=5000,method=aaaaaaaaaaaaaaaaaaaaaaaa".toList [40, 50]).overrun = true := by
  decide

/-- **C3, amended.** For every algorithm name, every array shape and every
parameter string in which each `minsize=` token is plain (its value states an
integer from -2^31 to 2^31 - 1, or does not start like a number) and each
`method=` or `chunk=` value is short (a first word of at most 15 characters):
if the element count is smaller than `minsize` (the integer given by the
`minsize=` token, or 1024 when none is given), `make_dcpl` stays within its
arrays and the property list it returns has contiguous layout, no chunk shape
and no filter. -/
theorem make_dcpl_below_minsize (env : Env) (hw : Bool) (alg params : List Char)
    (shape : List Nat)
    (hplain : plain_int_tokens .minsize params = true)
    (hfit : string_values_fit params = true)
    (h : H5Sget_simple_extent_npoints shape < requested_minsize params) :
    (make_dcpl env hw alg params shape).overrun = false ∧
    (make_dcpl env hw alg params shape).retval
      = { layout := .H5D_CONTIGUOUS, chunk := none, filters := [], pipeline := [] } := by
  rw [make_dcpl_plain env hw alg params shape hplain hfit]
  simp [lt_effective_of_lt_requested params shape h]

/-- Witness for C3, amended: a gzip request with `minsize=5000` on a 40 by 50
array. -/
theorem make_dcpl_below_minsize_witness :
    plain_int_tokens .minsize "minsize=5000".toList = true ∧
    string_values_fit "minsize=5000".toList = true ∧
    H5Sget_simple_extent_npoints [40, 50] < requested_minsize "minsize=5000".toList ∧
    (make_dcpl Env.plain false "gzip".toList "minsize=5000".toList [40, 50]).overrun = false ∧
    (make_dcpl Env.plain false "gzip".toList "minsize=5000".toList [40, 50]).retval
      = { layout := .H5D_CONTIGUOUS, chunk := none, filters := [], pipeline := [] } :=
  ⟨by decide, by decide, by decide,
    make_dcpl_below_minsize Env.plain false "gzip".toList "minsize=5000".toList [40, 50]
      (by decide) (by decide) (by decide)⟩

/-- Counterexample to C4 as stated: an unknown algorithm name on an array of
2000 elements (no parameters, so `minsize` is 1024) gives a chunked layout
with no filter.  With `minsize=4294967295` the same array is chunked although
it is smaller than the token's integer, and with a `chunk=` value of 19
characters `get_tokval` writes past the end of `dummy[16]`. -/
theorem make_dcpl_chunked_without_filter :
    requested_minsize "".toList ≤ H5Sget_simple_extent_npoints [2000] ∧
    (make_dcpl Env.plain false "foo".toList "".toList [2000]).overrun = false ∧
    (make_dcpl Env.plain false "foo".toList "".toList [2000]).retval.layout = .H5D_CHUNKED ∧
    (make_dcpl Env.plain false "foo".toList "".toList [2000]).retval.filters = [] ∧
    (make_dcpl Env.plain false "foo".toList "".toList [2000]).retval.pipeline = [] ∧
    H5Sget_simple_extent_npoints [2000] < effective_minsize "minsize=4294967295".toList ∧
    (make_dcpl Env.plain false "foo".toList "minsize=4294967295".toList [2000]).retval.layout
      = .H5D_CHUNKED ∧
    (make_dcpl Env.plain false "foo".toList "chunk=1000:1000:1000:1000".toList
      [2000]).overrun = true := by
  decide

/-- **C4, amended.** For every algorithm name, every array shape and every
parameter string with plain `minsize=` tokens and short string values,
`make_dcpl` stays within its arrays and: a non-empty filter pipeline comes
only with chunked layout; the layout is chunked exactly when the name is
non-empty and the element count is not below the threshold; a filter is set
exactly when, besides, the name starts with gzip, or starts with zfp and the
zfp filter could be set; the pipeline holds no filter that was not set; and
for any other name, szip included, neither list holds a filter. -/
theorem make_dcpl_layout_and_pipeline (env : Env) (hw : Bool) (alg params : List Char)
    (shape : List Nat)
    (hplain : plain_int_tokens .minsize params = true)
    (hfit : string_values_fit params = true) :
    (make_dcpl env hw alg params shape).overrun = false ∧
    ((make_dcpl env hw alg params shape).retval.pipeline ≠ [] →
      (make_dcpl env hw alg params shape).retval.layout = .H5D_CHUNKED) ∧
    ((make_dcpl env hw alg params shape).retval.layout = .H5D_CHUNKED ↔
      (alg ≠ [] ∧ effective_minsize params ≤ H5Sget_simple_extent_npoints shape)) ∧
    ((make_dcpl env hw alg params shape).retval.filters ≠ [] ↔
      ((alg ≠ [] ∧ effective_minsize params ≤ H5Sget_simple_extent_npoints shape) ∧
        (is_gzip alg = true ∨ (is_zfp alg = true ∧ env.H5Pset_filter_ok = true)))) ∧
    (make_dcpl env hw alg params shape).retval.pipeline.Sublist
      (make_dcpl env hw alg params shape).retval.filters ∧
    (is_gzip alg = false → is_zfp alg = false →
      (make_dcpl env hw alg params shape).retval.filters = [] ∧
      (make_dcpl env hw alg params shape).retval.pipeline = []) := by
  rw [make_dcpl_plain env hw alg params shape hplain hfit]
  by_cases ha : alg = []
  · simp [ha]
  · by_cases hsmall : H5Sget_simple_extent_npoints shape < effective_minsize params
    · have hle : ¬ effective_minsize params ≤ H5Sget_simple_extent_npoints shape := by omega
      simp [ha, hsmall, hle]
    · have hle : effective_minsize params ≤ H5Sget_simple_extent_npoints shape := by omega
      by_cases hg : is_gzip alg = true
      · simp only [ha, hsmall, hle, hg, or_self, if_false, if_true]
        by_cases hs : read_shuffle params = true <;>
          by_cases hl : to_unsigned (read_level params) ≤ 9 <;> simp [hs, hl, ha]
      · by_cases hz : is_zfp alg = true
        · by_cases hok : env.H5Pset_filter_ok = true
          · simp [ha, hsmall, hle, hg, hz, hok]
          · simp [ha, hsmall, hle, hg, hz, hok]
        · by_cases hs : is_szip alg = true
          · simp [ha, hsmall, hle, hg, hz, hs]
          · simp [ha, hsmall, hle, hg, hz, hs]

/-- Witness for C4, amended: a szip request with `minsize=100` on 2000
elements is chunked with no filter. -/
theorem make_dcpl_layout_and_pipeline_witness :
    plain_int_tokens .minsize "minsize=100".toList = true ∧
    string_values_fit "minsize=100".toList = true ∧
    (make_dcpl Env.plain false "szip".toList "minsize=100".toList [2000]).retval.layout
      = .H5D_CHUNKED ∧
    (make_dcpl Env.plain false "szip".toList "minsize=100".toList [2000]).retval.filters = [] :=
  ⟨by decide, by decide, by decide,
    ((make_dcpl_layout_and_pipeline Env.plain false "szip".toList "minsize=100".toList [2000]
      (by decide) (by decide)).2.2.2.2.2 (by decide) (by decide)).1⟩

/-- Counterexample to C5 as stated: with `minsize=-1` an array of 5 elements
is not smaller than the token's integer, yet the layout stays contiguous with
no chunk shape.  The same holds with `minsize=-4294966296`, which the `int`
conversion stores as 1000; and with `minsize=100,chunk=` followed by 19
characters on 2000 elements `get_tokval` writes past the end of `dummy[16]`. -/
theorem make_dcpl_minsize_minus_one :
    requested_minsize "minsize=-1".toList = -1 ∧
    requested_minsize "minsize=-1".toList ≤ H5Sget_simple_extent_npoints [5] ∧
    (make_dcpl Env.plain false "gzip".toList "minsize=-1".toList [5]).overrun = false ∧
    (make_dcpl Env.plain false "gzip".toList "minsize=-1".toList [5]).retval.layout
      = .H5D_CONTIGUOUS ∧
    (make_dcpl Env.plain false "gzip".toList "minsize=-1".toList [5]).retval.chunk = none ∧
    effective_minsize "minsize=-4294966296".toList ≤ H5Sget_simple_extent_npoints [5] ∧
    (make_dcpl Env.plain false "gzip".toList "minsize=-4294966296".toList [5]).retval.layout
      = .H5D_CONTIGUOUS ∧
    (make_dcpl Env.plain false "gzip".toList "minsize=100,chunk=1000:1000:1000:1000".toList
      [2000]).overrun = true := by
  decide

/-- **C5, amended.** For every non-empty algorithm name and every parameter
string with plain `minsize=` tokens and short string values: if the element
count is not smaller than the threshold (the integer given by the `minsize=`
token when that integer is not -1; 1024 when no such token is given or it
gives -1), `make_dcpl` stays within its arrays and the property list has
chunked layout with a single chunk whose shape is the full array shape. -/
theorem make_dcpl_single_chunk (env : Env) (hw : Bool) (alg params : List Char)
    (shape : List Nat) (ha : alg ≠ [])
    (hplain : plain_int_tokens .minsize params = true)
    (hfit : string_values_fit params = true)
    (h : effective_minsize params ≤ H5Sget_simple_extent_npoints shape) :
    (make_dcpl env hw alg params shape).overrun = false ∧
    (make_dcpl env hw alg params shape).retval.layout = .H5D_CHUNKED ∧
    (make_dcpl env hw alg params shape).retval.chunk = some shape := by
  have hsmall : ¬ H5Sget_simple_extent_npoints shape < effective_minsize params := by omega
  rw [make_dcpl_plain env hw alg params shape hplain hfit]
  simp only [ha, hsmall, or_self, if_false]
  by_cases hg : is_gzip alg = true
  · simp [hg]
  · by_cases hz : is_zfp alg = true
    · by_cases hok : env.H5Pset_filter_ok = true
      · simp [hg, hz, hok]
      · simp [hg, hz, hok]
    · by_cases hs : is_szip alg = true
      · simp [hg, hz, hs]
      · simp [hg, hz, hs]

/-- Witness for C5, amended: an unknown algorithm name, `minsize=100`, a 20 by
30 array. -/
theorem make_dcpl_single_chunk_witness :
    plain_int_tokens .minsize "minsize=100".toList = true ∧
    string_values_fit "minsize=100".toList = true ∧
    effective_minsize "minsize=100".toList ≤ H5Sget_simple_extent_npoints [20, 30] ∧
    (make_dcpl Env.plain false "lz4".toList "minsize=100".toList [20, 30]).retval.layout
      = .H5D_CHUNKED ∧
    (make_dcpl Env.plain false "lz4".toList "minsize=100".toList [20, 30]).retval.chunk
      = some [20, 30] :=
  ⟨by decide, by decide, by decide,
    (make_dcpl_single_chunk Env.plain false "lz4".toList "minsize=100".toList [20, 30]
      (by decide) (by decide) (by decide) (by decide)).2⟩

/-- C6, the code at the failing input: a gzip request with `shuffle=2` on 2000
elements gets the deflate filter alone, no shuffle filter before it; with
`shuffle=1`, and with no shuffle token, the shuffle filter is there. -/
theorem make_dcpl_gzip_shuffle_two :
    (make_dcpl Env.plain false "gzip".toList "shuffle=2".toList [2000]).retval.filters
      = [.deflate 9] ∧
    (make_dcpl Env.plain false "gzip".toList "shuffle=1".toList [2000]).retval.filters
      = [.shuffle, .deflate 9] ∧
    (make_dcpl Env.plain false "gzip".toList "".toList [2000]).retval.filters
      = [.shuffle, .deflate 9] := by
  decide

/-- In a parameter string whose tokens are plain for the integer key `k`, the
integer the string gives to `k` is from -2^31 to 2^31 - 1. -/
theorem last_stated_int_range (k : ParamKey) (params : List Char)
    (h : plain_int_tokens k params = true) (l : Int)
    (hl : last_stated_int k params = some l) : -(2 ^ 31) ≤ l ∧ l < 2 ^ 31 := by
  unfold last_stated_int at hl
  have hmem := List.mem_of_getLast?_eq_some hl
  rw [List.mem_filterMap] at hmem
  obtain ⟨t, ht, hst⟩ := hmem
  unfold plain_int_tokens at h
  rw [List.all_eq_true] at h
  have hp := h t ht
  unfold plain_int_token at hp
  unfold stated_int at hst
  by_cases hb : begins_with_ci t k.text = true
  · simp only [hb, if_true] at hst
    simp only [hb, Bool.not_true, Bool.false_or, hst, decide_eq_true_eq] at hp
    exact hp
  · simp [hb] at hst

theorem effective_level_range (params : List Char)
    (h : plain_int_tokens .level params = true) :
    -(2 ^ 31) ≤ effective_level params ∧ effective_level params < 2 ^ 31 := by
  unfold effective_level
  cases hl : last_stated_int .level params with
  | none => simp
  | some l =>
    have hr := last_stated_int_range .level params h l hl
    by_cases h1 : l = -1
    · simp [h1]
    · simp only [h1, if_false]
      exact hr

/-- The conversion of an `int` to `unsigned`: a negative value comes out
2^32 larger, any other is kept. -/
theorem to_unsigned_of_int (L : Int) (h1 : -(2 ^ 31) ≤ L) (h2 : L < 2 ^ 31) :
    to_unsigned L = (if 0 ≤ L then L.toNat else (L + 2 ^ 32).toNat) ∧
    (to_unsigned L ≤ 9 ↔ (0 ≤ L ∧ L ≤ 9)) := by
  unfold to_unsigned
  by_cases hn : 0 ≤ L
  · have hm : L % 2 ^ 32 = L := Int.emod_eq_of_lt hn (by omega)
    rw [hm, if_pos hn]
    refine ⟨rfl, ?_⟩
    omega
  · have hm : L % 2 ^ 32 = L + 2 ^ 32 := by
      have h3 : (L + 2 ^ 32) % 2 ^ 32 = L + 2 ^ 32 := Int.emod_eq_of_lt (by omega) (by omega)
      rw [← h3]
      simp
    rw [hm, if_neg hn]
    refine ⟨rfl, ?_⟩
    omega

/-- Counterexample to C8 as stated: the token `level=-1` gives the integer
-1, and the deflate level of the gzip request is 9; the token `level=-5`
gives -5, the level passed to `H5Pset_deflate` is 4294967291, and the
pipeline has no deflate filter; the token `level=4294967296` gives an integer
that the `int` conversion stores as 0; and with `level=5,method=` followed by
24 letters `get_tokval` writes past the end of `dummy[16]`. -/
theorem make_dcpl_level_minus_one :
    last_stated_int .level "level=-1".toList = some (-1) ∧
    requested_minsize "level=-1".toList ≤ H5Sget_simple_extent_npoints [2000] ∧
    deflate_levels
      (make_dcpl Env.plain false "gzip".toList "level=-1".toList [2000]).retval.filters
      = [9] ∧
    deflate_levels
      (make_dcpl Env.plain false "gzip".toList "level=-1".toList [2000]).retval.pipeline
      = [9] ∧
    last_stated_int .level "level=-5".toList = some (-5) ∧
    deflate_levels
      (make_dcpl Env.plain false "gzip".toList "level=-5".toList [2000]).retval.filters
      = [4294967291] ∧
    deflate_levels
      (make_dcpl Env.plain false "gzip".toList "level=-5".toList [2000]).retval.pipeline
      = [] ∧
    last_stated_int .level "level=4294967296".toList = some 4294967296 ∧
    deflate_levels
      (make_dcpl Env.plain false "gzip".toList "level=4294967296".toList [2000]).retval.filters
      = [0] ∧
    (make_dcpl Env.plain false "gzip".toList "level=5,method=aaaaaaaaaaaaaaaaaaaaaaaa".toList
      [2000]).overrun = true := by
  decide

/-- **C8, amended.** For a gzip request on an array whose element count is
not smaller than the threshold, with a parameter string whose `minsize=` and
`level=` tokens are plain and whose string values are short: `make_dcpl`
stays within its arrays and sets one deflate filter.  With `L` the integer
given by the `level=` token, or 9 when there is none or it gives -1, the
level passed to `H5Pset_deflate` is `L` as an `unsigned`, that is `L` itself
when it is not negative and `L + 2^32` when it is; nothing brings it into a
range.  The pipeline holds the deflate filter, with level `L`, when `L` is
from 0 to 9, and no deflate filter otherwise. -/
theorem make_dcpl_gzip_level (env : Env) (hw : Bool) (alg params : List Char)
    (shape : List Nat) (hg : is_gzip alg = true)
    (hmin : plain_int_tokens .minsize params = true)
    (hlev : plain_int_tokens .level params = true)
    (hfit : string_values_fit params = true)
    (h : effective_minsize params ≤ H5Sget_simple_extent_npoints shape) :
    (make_dcpl env hw alg params shape).overrun = false ∧
    deflate_levels (make_dcpl env hw alg params shape).retval.filters =
      [if 0 ≤ effective_level params then (effective_level params).toNat
        else (effective_level params + 2 ^ 32).toNat] ∧
    deflate_levels (make_dcpl env hw alg params shape).retval.pipeline =
      (if 0 ≤ effective_level params ∧ effective_level params ≤ 9 then
        [(effective_level params).toNat] else []) := by
  have hsmall : ¬ H5Sget_simple_extent_npoints shape < effective_minsize params := by omega
  have ha : alg ≠ [] := by
    intro e
    rw [e] at hg
    exact absurd hg (by decide)
  obtain ⟨r1, r2⟩ := effective_level_range params hlev
  obtain ⟨u1, u2⟩ := to_unsigned_of_int (effective_level params) r1 r2
  rw [make_dcpl_plain env hw alg params shape hmin hfit, read_level_plain params hlev]
  simp only [ha, hsmall, or_self, if_false, hg, if_true]
  refine ⟨trivial, ?_, ?_⟩
  · rw [← u1]
    by_cases hs : read_shuffle params = true <;> simp [hs, deflate_levels]
  · by_cases h9 : 0 ≤ effective_level params ∧ effective_level params ≤ 9
    · have hu9 := u2.mpr h9
      have hto : to_unsigned (effective_level params) = (effective_level params).toNat := by
        rw [u1, if_pos h9.1]
      simp only [hu9, h9, and_self, if_true]
      rw [hto]
      by_cases hs : read_shuffle params = true <;> simp [hs, deflate_levels]
    · have hu9 : ¬ to_unsigned (effective_level params) ≤ 9 := fun hh => h9 (u2.mp hh)
      simp only [hu9, h9, if_false]
      by_cases hs : read_shuffle params = true <;> simp [hs, deflate_levels]

/-- Witness for C8, amended: `level=4,level=12` on 2000 elements: level 12 is
passed on and the pipeline has no deflate filter. -/
theorem make_dcpl_gzip_level_witness :
    effective_level "level=4,level=12".toList = 12 ∧
    deflate_levels
      (make_dcpl Env.plain false "GZip".toList "level=4,level=12".toList [2000]).retval.filters
      = [if 0 ≤ effective_level "level=4,level=12".toList then
          (effective_level "level=4,level=12".toList).toNat
        else (effective_level "level=4,level=12".toList + 2 ^ 32).toNat] ∧
    deflate_levels
      (make_dcpl Env.plain false "GZip".toList "level=4,level=12".toList [2000]).retval.pipeline
      = (if 0 ≤ effective_level "level=4,level=12".toList ∧
          effective_level "level=4,level=12".toList ≤ 9 then
        [(effective_level "level=4,level=12".toList).toNat] else []) :=
  ⟨by decide,
    (make_dcpl_gzip_level Env.plain false "GZip".toList "level=4,level=12".toList [2000]
      (by decide) (by decide) (by decide) (by decide) (by decide)).2⟩

/-- C9, the code at the failing inputs: for a gzip request on 2000 elements
the level passed to `H5Pset_deflate` is 0 for `level=0` and 12 for `level=12`;
neither is brought into the range from 1 to 9. -/
theorem make_dcpl_gzip_level_not_clamped :
    deflate_levels
      (make_dcpl Env.plain false "gzip".toList "level=0".toList [2000]).retval.filters = [0] ∧
    deflate_levels
      (make_dcpl Env.plain false "gzip".toList "level=12".toList [2000]).retval.filters
      = [12] := by
  decide

/-- C10, the code at the failing input: with the plain mode string `MIFAUTO`
the function `main_dump` raises no diagnostic and calls `main_dump_mif`, with
whatever the unassigned local `numFiles` holds as the file count. -/
theorem main_dump_mifauto (mpi_size numFiles0 : Int) :
    main_dump (.string "MIFAUTO".toList) mpi_size numFiles0 = .main_dump_mif numFiles0 := by
  rfl

/-- **C11.** With the mode `SIF`, given as the first element of a
`[mode, count]` array or as a plain mode string, `main_dump` ends in the fatal
diagnostic, whatever the count, the worker count or the content of the local
`numFiles`: it does not call `main_dump_mif`. -/
theorem main_dump_sif (filecnt mpi_size numFiles0 : Int) :
    main_dump (.array "SIF".toList filecnt) mpi_size numFiles0
      = .die "HDF5_S3 plugin cannot currently handle SIF mode" ∧
    main_dump (.string "SIF".toList) mpi_size numFiles0
      = .die "HDF5_S3 plugin cannot currently handle SIF mode" ∧
    (∀ n : Int, main_dump (.array "SIF".toList filecnt) mpi_size numFiles0
      ≠ .main_dump_mif n) ∧
    (∀ n : Int, main_dump (.string "SIF".toList) mpi_size numFiles0 ≠ .main_dump_mif n) := by
  have h1 : main_dump (.array "SIF".toList filecnt) mpi_size numFiles0
      = .die "HDF5_S3 plugin cannot currently handle SIF mode" := rfl
  have h2 : main_dump (.string "SIF".toList) mpi_size numFiles0
      = .die "HDF5_S3 plugin cannot currently handle SIF mode" := rfl
  refine ⟨h1, h2, ?_, ?_⟩
  · intro n; rw [h1]; exact fun h => MainDumpResult.noConfusion h
  · intro n; rw [h2]; exact fun h => MainDumpResult.noConfusion h

/-! ## Theorems: the completion callback -/

/-- Any run of calls with sizes of type `int`, none negative, on callback data
that span the rest of the image: the chunks copied continue the part of the
image already sent, and the callback data still span the rest. -/
theorem pull_seq_spec (image : List UInt8) :
    ∀ (sizes : List Int) (d : put_object_callback_data),
      d.data + d.contentLength = image.length → d.contentLength < 2 ^ 64 →
      (∀ n ∈ sizes, 0 ≤ n ∧ n < 2 ^ 31) →
      (pull_seq image sizes d).2.data + (pull_seq image sizes d).2.contentLength
        = image.length ∧
      image.take d.data ++ (pull_seq image sizes d).1.flatten
        = image.take (pull_seq image sizes d).2.data ∧
      (pull_seq image sizes d).2.contentLength
        = d.contentLength - (sizes.map Int.toNat).sum := by
  intro sizes
  induction sizes with
  | nil => intro d h _ _; simp [pull_seq, h]
  | cons n ns ih =>
    intro d hspan hlen hsizes
    obtain ⟨hn0, hn⟩ := hsizes n (by simp)
    obtain ⟨_, hcopy, hdata, hrem⟩ := putObjectDataCallback_step image n d hn0 hn hlen
    have hspan2 : (putObjectDataCallback image n d).data.data
        + (putObjectDataCallback image n d).data.contentLength = image.length := by
      rw [hdata, hrem]; omega
    have hlen2 : (putObjectDataCallback image n d).data.contentLength < 2 ^ 64 := by
      rw [hrem]; omega
    obtain ⟨ih1, ih2, ih3⟩ := ih (putObjectDataCallback image n d).data hspan2 hlen2
      (fun m hm => hsizes m (by simp [hm]))
    simp only [pull_seq, List.flatten_cons, List.map_cons, List.sum_cons]
    refine ⟨ih1, ?_, ?_⟩
    · rw [← ih2, hdata, hcopy, List.take_add, List.append_assoc]
    · rw [ih3, hrem]; omega

/-- A call on callback data with nothing left copies nothing, returns 0 and
leaves the callback data as they are, whatever size is asked for. -/
theorem putObjectDataCallback_done (image : List UInt8) (N : Int)
    (d : put_object_callback_data) (h : d.contentLength = 0) :
    putObjectDataCallback image N d = ⟨0, [], d⟩ := by
  obtain ⟨p, c⟩ := d
  simp only at h
  subst h
  simp [putObjectDataCallback, to_size_t]

/-- **C19.** For every image (its length a `size_t`) and every sequence of
positive request sizes of type `int`, starting as `main_dump_mif` does with
the read pointer at the start of the image and `contentLength` its length:
the chunks copied by the successive calls, joined in call order, are the
first bytes of the image, as many as have been sent; what remains is the
image length less the sizes asked for; once `contentLength` is 0 the chunks
joined are the image, byte for byte, and every later call copies nothing and
leaves the callback data unchanged. -/
theorem pull_seq_image (image : List UInt8) (sizes : List Int)
    (himg : image.length < 2 ^ 64) (hsizes : ∀ n ∈ sizes, 1 ≤ n ∧ n < 2 ^ 31) :
    (pull_seq image sizes ⟨0, image.length⟩).1.flatten
      = image.take (image.length - (pull_seq image sizes ⟨0, image.length⟩).2.contentLength) ∧
    (pull_seq image sizes ⟨0, image.length⟩).2.contentLength
      = image.length - (sizes.map Int.toNat).sum ∧
    ((pull_seq image sizes ⟨0, image.length⟩).2.contentLength = 0 →
      (pull_seq image sizes ⟨0, image.length⟩).1.flatten = image ∧
      ∀ N : Int,
        putObjectDataCallback image N (pull_seq image sizes ⟨0, image.length⟩).2
          = ⟨0, [], (pull_seq image sizes ⟨0, image.length⟩).2⟩) := by
  obtain ⟨h1, h2, h3⟩ := pull_seq_spec image sizes ⟨0, image.length⟩ (by simp) himg
    (fun n hn => ⟨by have := (hsizes n hn).1; omega, (hsizes n hn).2⟩)
  simp only [List.take_zero, List.nil_append] at h2
  have hdata : (pull_seq image sizes ⟨0, image.length⟩).2.data
      = image.length - (pull_seq image sizes ⟨0, image.length⟩).2.contentLength := by omega
  refine ⟨by rw [h2, hdata], h3, ?_⟩
  intro hz
  refine ⟨?_, fun N => putObjectDataCallback_done image N _ hz⟩
  rw [h2, hdata, hz]
  simp

/-- Witness for C19: a five-byte image pulled with requests of 2, 2 and 7
bytes. -/
theorem pull_seq_image_witness :
    (pull_seq [10, 20, 30, 40, 50] [2, 2, 7] ⟨0, 5⟩).1 = [[10, 20], [30, 40], [50]] ∧
    (pull_seq [10, 20, 30, 40, 50] [2, 2, 7] ⟨0, 5⟩).2.contentLength = 0 ∧
    (pull_seq [10, 20, 30, 40, 50] [2, 2, 7] ⟨0, 5⟩).1.flatten = [10, 20, 30, 40, 50] :=
  ⟨by decide, by decide,
    ((pull_seq_image [10, 20, 30, 40, 50] [2, 2, 7] (by decide) (by decide)).2.2
      (by decide)).1⟩

/-! ## Theorems: zfp and szip requests, repeated resolution -/

/-- After the pass through the parameter string, `zfp_precision` holds the
`int` of the last `precision=` token the code reads, or its initial -1. -/
theorem parse_params_zfp_precision (env : Env) (params : List Char) :
    (parse_params env params).zfp_precision = (last_read_int .precision params).getD (-1) := by
  unfold parse_params last_read_int
  exact foldl_getD_getLast? (parse_token env) Locals.zfp_precision
    (token_read sscanf_d .precision) (fun v t => by rw [parse_token_eq]) _ _

theorem is_zfp_not_gzip (alg : List Char) (h : is_zfp alg = true) : is_gzip alg = false := by
  cases alg with
  | nil => exact absurd h (by decide)
  | cons a rest =>
    unfold is_zfp begins_with_ci at h
    unfold is_gzip begins_with_ci
    have h1 : tolower a = 'z' := by
      have h2 : ((a :: rest).take 3).map tolower = ['z', 'f', 'p'] := by simpa using h
      simp only [List.take_succ_cons, List.map_cons] at h2
      exact (List.cons.inj h2).1
    have h3 : ¬ (((a :: rest).take 4).map tolower = ['g', 'z', 'i', 'p']) := by
      simp only [List.take_succ_cons, List.map_cons]
      intro h4
      have h5 := (List.cons.inj h4).1
      rw [h1] at h5
      exact absurd h5 (by decide)
    have h6 : ("gzip".toList.map tolower) = ['g', 'z', 'i', 'p'] := by decide
    have h7 : "gzip".toList.length = 4 := by decide
    rw [h6, h7]
    simpa using h3

theorem is_szip_not_gzip_zfp (alg : List Char) (h : is_szip alg = true) :
    is_gzip alg = false ∧ is_zfp alg = false := by
  cases alg with
  | nil => exact absurd h (by decide)
  | cons a rest =>
    unfold is_szip begins_with_ci at h
    unfold is_gzip is_zfp begins_with_ci
    have h1 : tolower a = 's' := by
      have h2 : ((a :: rest).take 4).map tolower = ['s', 'z', 'i', 'p'] := by simpa using h
      simp only [List.take_succ_cons, List.map_cons] at h2
      exact (List.cons.inj h2).1
    have hg : ¬ (((a :: rest).take 4).map tolower = ['g', 'z', 'i', 'p']) := by
      simp only [List.take_succ_cons, List.map_cons]
      intro h4
      have h5 := (List.cons.inj h4).1
      rw [h1] at h5
      exact absurd h5 (by decide)
    have hz : ¬ (((a :: rest).take 3).map tolower = ['z', 'f', 'p']) := by
      simp only [List.take_succ_cons, List.map_cons]
      intro h4
      have h5 := (List.cons.inj h4).1
      rw [h1] at h5
      exact absurd h5 (by decide)
    have e1 : ("gzip".toList.map tolower) = ['g', 'z', 'i', 'p'] := by decide
    have e2 : "gzip".toList.length = 4 := by decide
    have e3 : ("zfp".toList.map tolower) = ['z', 'f', 'p'] := by decide
    have e4 : "zfp".toList.length = 3 := by decide
    rw [e1, e2, e3, e4]
    constructor
    · simpa using hg
    · simpa using hz

/-- For a request that is not for gzip, `make_dcpl` looks at the parameter
string only through the threshold and through whether it stays within its
arrays. -/
theorem make_dcpl_not_gzip_params (env : Env) (hw : Bool) (alg p1 p2 : List Char)
    (shape : List Nat) (hg : is_gzip alg = false)
    (hm : read_threshold p1 = read_threshold p2)
    (hf : string_values_fit p1 = string_values_fit p2) :
    make_dcpl env hw alg p1 shape = make_dcpl env hw alg p2 shape := by
  rw [make_dcpl_eq, make_dcpl_eq, hm, hf]
  simp only [hg, Bool.false_eq_true, if_false]

/-- C14, the code at the failing input: for a zfp request on 2000 elements
the result of `make_dcpl` is the same for `rate=4,precision=16`, for
`precision=16,rate=4` and for no parameters at all; when the filter can be
set, its parameters are the unassigned array `cd_values`; and the parsing
pass keeps `precision` at 16 whether `rate` comes before or after it. -/
theorem make_dcpl_zfp_ignores_tokens (env : Env) (hw : Bool) :
    make_dcpl env hw "zfp".toList "rate=4,precision=16".toList [2000]
      = make_dcpl env hw "zfp".toList "precision=16,rate=4".toList [2000] ∧
    make_dcpl env hw "zfp".toList "rate=4,precision=16".toList [2000]
      = make_dcpl env hw "zfp".toList "".toList [2000] ∧
    (env.H5Pset_filter_ok = true →
      (make_dcpl env hw "zfp".toList "rate=4,precision=16".toList [2000]).retval.filters
        = [.generic 32013 H5Z_FLAG_MANDATORY 10 env.cd_values]) ∧
    (parse_params env "rate=4,precision=16".toList).zfp_precision = 16 ∧
    (parse_params env "precision=16,rate=4".toList).zfp_precision = 16 := by
  have hz : is_zfp "zfp".toList = true := by decide
  have hg : is_gzip "zfp".toList = false := by decide
  have ha : "zfp".toList ≠ [] := by decide
  have m1 : read_threshold "rate=4,precision=16".toList = 1024 := by decide
  have m2 : read_threshold "precision=16,rate=4".toList = 1024 := by decide
  have m3 : read_threshold "".toList = 1024 := by decide
  have f1 : string_values_fit "rate=4,precision=16".toList = true := by decide
  have f2 : string_values_fit "precision=16,rate=4".toList = true := by decide
  have f3 : string_values_fit "".toList = true := by decide
  have p1 : last_read_int .precision "rate=4,precision=16".toList = some 16 := by decide
  have p2 : last_read_int .precision "precision=16,rate=4".toList = some 16 := by decide
  refine ⟨?_, ?_, ?_, ?_, ?_⟩
  · exact make_dcpl_not_gzip_params env hw _ _ _ _ hg (m1.trans m2.symm) (f1.trans f2.symm)
  · exact make_dcpl_not_gzip_params env hw _ _ _ _ hg (m1.trans m3.symm) (f1.trans f3.symm)
  · intro hok
    rw [make_dcpl_eq, m1]
    have hn : ¬ H5Sget_simple_extent_npoints [2000] < 1024 := by decide
    simp only [ha, hg, hz, hok, hn, Bool.false_eq_true, if_false, if_true]
  · rw [parse_params_zfp_precision, p1]; rfl
  · rw [parse_params_zfp_precision, p2]; rfl

/-- One call of `make_dcpl` logs the szip warning at most once, not at all
when the static flag is already set, and sets the flag when it logs it; a set
flag stays set. -/
theorem make_dcpl_szip_warning_count (env : Env) (hw : Bool) (alg params : List Char)
    (shape : List Nat) :
    (make_dcpl env hw alg params shape).warnings.count
        "szip compressor not available in this build" ≤ 1 ∧
    (hw = true →
      (make_dcpl env hw alg params shape).warnings.count
          "szip compressor not available in this build" = 0 ∧
      (make_dcpl env hw alg params shape).have_issued_warning = true) ∧
    ((make_dcpl env hw alg params shape).warnings.count
        "szip compressor not available in this build" = 1 →
      (make_dcpl env hw alg params shape).have_issued_warning = true) := by
  have hne : ("Unable to set up H5Z-ZFP compressor"
      == "szip compressor not available in this build") = false := by decide
  rw [make_dcpl_eq]
  by_cases h0 : alg = []
  · simp only [h0, if_true]
    simp
  · simp only [h0, if_false]
    by_cases h1 : H5Sget_simple_extent_npoints shape < read_threshold params
    · simp only [h1, if_true]
      simp
    · simp only [h1, if_false]
      by_cases hg : is_gzip alg = true
      · simp only [hg, if_true]
        simp
      · simp only [hg, if_false]
        by_cases hz : is_zfp alg = true
        · simp only [hz, if_true]
          by_cases hok : env.H5Pset_filter_ok = true
          · simp only [hok, if_true]
            simp
          · simp only [hok, if_false]
            simp [List.count_cons, hne]
        · simp only [hz, if_false]
          by_cases hs : is_szip alg = true
          · simp only [hs, if_true]
            cases hw <;> simp
          · simp only [hs, if_false]
            simp

/-- Over any sequence of calls of `make_dcpl` the szip warning is logged at
most once, and not at all when the static flag is set at the start. -/
theorem make_dcpl_seq_szip_warning (env : Env) :
    ∀ (reqs : List (List Char × List Char × List Nat)) (hw : Bool),
      (((make_dcpl_seq env hw reqs).map (fun r => r.warnings)).flatten.count
          "szip compressor not available in this build" ≤ 1) ∧
      (hw = true →
        ((make_dcpl_seq env hw reqs).map (fun r => r.warnings)).flatten.count
          "szip compressor not available in this build" = 0) := by
  intro reqs
  induction reqs with
  | nil => intro hw; simp [make_dcpl_seq]
  | cons req rest ih =>
    intro hw
    obtain ⟨alg, params, shape⟩ := req
    obtain ⟨c1, c2, c3⟩ := make_dcpl_szip_warning_count env hw alg params shape
    obtain ⟨i1, i2⟩ := ih (make_dcpl env hw alg params shape).have_issued_warning
    simp only [make_dcpl_seq, List.map_cons, List.flatten_cons, List.count_append]
    constructor
    · by_cases hc : (make_dcpl env hw alg params shape).warnings.count
          "szip compressor not available in this build" = 1
      · have := i2 (c3 hc)
        omega
      · omega
    · intro hset
      obtain ⟨z1, z2⟩ := c2 hset
      have := i2 z2
      omega

/-- Over a sequence of calls of `make_dcpl` with short string values, no
call overruns an array. -/
theorem make_dcpl_seq_overrun (env : Env) :
    ∀ (reqs : List (List Char × List Char × List Nat)) (hw : Bool),
      (∀ q ∈ reqs, string_values_fit q.2.1 = true) →
      ∀ r ∈ make_dcpl_seq env hw reqs, r.overrun = false := by
  intro reqs
  induction reqs with
  | nil => intro hw _ r hr; simp [make_dcpl_seq] at hr
  | cons req rest ih =>
    intro hw hfit r hr
    obtain ⟨alg, params, shape⟩ := req
    simp only [make_dcpl_seq, List.mem_cons] at hr
    rcases hr with hr | hr
    · rw [hr]
      exact make_dcpl_overrun env hw alg params shape (hfit _ (List.mem_cons_self _ _))
    · exact ih _ (fun q hq => hfit q (List.mem_cons_of_mem _ hq)) r hr

/-- Counterexample to C15 as stated: for a szip request with the parameter
string `chunk=1000:1000:1000:1000`, whose value has 19 characters,
`get_tokval` writes past the end of `dummy[16]`: the call has no defined
result. -/
theorem make_dcpl_szip_chunk_overrun :
    is_szip "szip".toList = true ∧
    string_values_fit "chunk=1000:1000:1000:1000".toList = false ∧
    get_tokval sscanf_s 64 "chunk=1000:1000:1000:1000".toList "chunk=%s".toList = .overrun ∧
    (make_dcpl Env.plain false "szip".toList "chunk=1000:1000:1000:1000".toList
      [2000]).overrun = true := by
  decide

/-- **C15, amended.** For a szip request and a parameter string with short
string values, for every shape: `make_dcpl` stays within its arrays and
returns a property list with no filter; the call logs nothing or the one
warning that szip is not available; and over any sequence of calls of
`make_dcpl` whose parameter strings have short string values, every call stays
within its arrays and that warning is logged at most once. -/
theorem make_dcpl_szip_degrades (env : Env) (hw : Bool) (alg params : List Char)
    (shape : List Nat) (reqs : List (List Char × List Char × List Nat))
    (hs : is_szip alg = true)
    (hfit : string_values_fit params = true)
    (hreqs : ∀ q ∈ reqs, string_values_fit q.2.1 = true) :
    (make_dcpl env hw alg params shape).overrun = false ∧
    (make_dcpl env hw alg params shape).retval.filters = [] ∧
    (make_dcpl env hw alg params shape).retval.pipeline = [] ∧
    ((make_dcpl env hw alg params shape).warnings = [] ∨
      (make_dcpl env hw alg params shape).warnings
        = ["szip compressor not available in this build"]) ∧
    (∀ r ∈ make_dcpl_seq env hw reqs, r.overrun = false) ∧
    ((make_dcpl_seq env hw reqs).map (fun r => r.warnings)).flatten.count
      "szip compressor not available in this build" ≤ 1 := by
  obtain ⟨hg, hz⟩ := is_szip_not_gzip_zfp alg hs
  have ha : alg ≠ [] := by
    intro e
    rw [e] at hs
    exact absurd hs (by decide)
  refine ⟨make_dcpl_overrun env hw alg params shape hfit, ?_, ?_, ?_,
    make_dcpl_seq_overrun env reqs hw hreqs, (make_dcpl_seq_szip_warning env reqs hw).1⟩
  · rw [make_dcpl_eq]
    simp only [ha, if_false]
    by_cases h1 : H5Sget_simple_extent_npoints shape < read_threshold params
    · simp only [h1, if_true]
    · simp only [h1, if_false, hg, hz, hs, Bool.false_eq_true, if_true]
  · rw [make_dcpl_eq]
    simp only [ha, if_false]
    by_cases h1 : H5Sget_simple_extent_npoints shape < read_threshold params
    · simp only [h1, if_true]
    · simp only [h1, if_false, hg, hz, hs, Bool.false_eq_true, if_true]
  · rw [make_dcpl_eq]
    simp only [ha, if_false]
    by_cases h1 : H5Sget_simple_extent_npoints shape < read_threshold params
    · simp only [h1, if_true, true_or]
    · simp only [h1, if_false, hg, hz, hs, Bool.false_eq_true, if_true]
      cases hw <;> simp

/-- Witness for C15, amended: three szip requests in a row, on 2000, 10 and
4000 elements; the warning comes with the first only. -/
theorem make_dcpl_szip_degrades_witness :
    (make_dcpl_seq Env.plain false
        [("szip".toList, "".toList, [2000]), ("szip".toList, "".toList, [10]),
          ("SZIP".toList, "block=8".toList, [4000])]).map (fun r => r.warnings)
      = [["szip compressor not available in this build"], [], []] ∧
    (make_dcpl Env.plain false "szip".toList "method=ec".toList [2000]).overrun = false ∧
    (make_dcpl Env.plain false "szip".toList "method=ec".toList [2000]).retval.filters = [] :=
  ⟨by decide,
    (make_dcpl_szip_degrades Env.plain false "szip".toList "method=ec".toList [2000]
      [("szip".toList, "".toList, [2000]), ("szip".toList, "".toList, [10]),
        ("SZIP".toList, "block=8".toList, [4000])]
      (by decide) (by decide) (by decide)).1,
    (make_dcpl_szip_degrades Env.plain false "szip".toList "method=ec".toList [2000]
      [("szip".toList, "".toList, [2000]), ("szip".toList, "".toList, [10]),
        ("SZIP".toList, "block=8".toList, [4000])]
      (by decide) (by decide) (by decide)).2.1⟩

/-- The characters before the first comma hold no comma, and are the whole
string or are followed in it by a comma. -/
theorem takeWhile_comma (l : List Char) :
    ',' ∉ l.takeWhile (fun c => c != ',') ∧
    (l.takeWhile (fun c => c != ',') = l ∨
      ∃ rest, l = l.takeWhile (fun c => c != ',') ++ ',' :: rest) := by
  induction l with
  | nil => simp
  | cons c r ih =>
    by_cases hc : c = ','
    · subst hc
      refine ⟨by simp, Or.inr ⟨r, by simp⟩⟩
    · have htw : (c :: r).takeWhile (fun c => c != ',') = c :: r.takeWhile (fun c => c != ',') := by
        simp [List.takeWhile_cons, hc]
      rw [htw]
      obtain ⟨ih1, ih2⟩ := ih
      constructor
      · intro hmem
        rcases List.mem_cons.mp hmem with h | h
        · exact hc h.symm
        · exact ih1 h
      · rcases ih2 with h | ⟨rest, h⟩
        · exact Or.inl (by rw [h])
        · exact Or.inr ⟨rest, by rw [List.cons_append, ← h]⟩

theorem strsep_loop_null (env : Env) (fuel : Nat) (buf : List Char) (v : Locals) :
    strsep_loop env fuel buf none v = some (v, buf) := by
  cases fuel <;> rfl

/-- With more turns than characters left, the `strsep` loop ends, and the
locals it leaves are those of `parse_token` folded over the comma-separated
fields of the text from `string` on. -/
theorem strsep_loop_spec (env : Env) :
    ∀ (fuel : Nat) (buf : List Char) (i : Nat) (v : Locals),
      i ≤ buf.length → buf.length - i < fuel →
      ∃ buf', buf'.length = buf.length ∧
        strsep_loop env fuel buf (some i) v
          = some ((strsep_fields (buf.drop i)).foldl (parse_token env) v, buf') := by
  intro fuel
  induction fuel with
  | zero => intro buf i v _ h; omega
  | succ fuel ih =>
    intro buf i v hi hfuel
    obtain ⟨hnc, hsplit⟩ := takeWhile_comma (buf.drop i)
    have hdl : (buf.drop i).length = buf.length - i := List.length_drop i buf
    have hstrsep : strsep buf i =
        if i + ((buf.drop i).takeWhile (fun c => c != ',')).length < buf.length then
          ((buf.drop i).takeWhile (fun c => c != ','),
            some (i + ((buf.drop i).takeWhile (fun c => c != ',')).length + 1),
            buf.set (i + ((buf.drop i).takeWhile (fun c => c != ',')).length) (Char.ofNat 0))
        else ((buf.drop i).takeWhile (fun c => c != ','), none, buf) := rfl
    generalize (buf.drop i).takeWhile (fun c => c != ',') = tok at hnc hsplit hstrsep
    by_cases hlt : i + tok.length < buf.length
    · have hs : strsep buf i =
          (tok, some (i + tok.length + 1), buf.set (i + tok.length) (Char.ofNat 0)) := by
        rw [hstrsep]; simp only [hlt, if_true]
      rcases hsplit with hall | ⟨rest, hrest⟩
      · exfalso
        have := congrArg List.length hall
        omega
      · have hrest_len := congrArg List.length hrest
        simp only [List.length_append, List.length_cons] at hrest_len
        have hdrop : (buf.set (i + tok.length) (Char.ofNat 0)).drop (i + tok.length + 1)
            = rest := by
          rw [List.drop_set_of_lt _ _ (by omega), Nat.add_assoc, ← List.drop_drop, hrest,
            List.drop_append]
          rfl
        obtain ⟨buf', hlen', hloop⟩ := ih (buf.set (i + tok.length) (Char.ofNat 0))
          (i + tok.length + 1) (parse_token env v tok)
          (by rw [List.length_set]; omega) (by rw [List.length_set]; omega)
        refine ⟨buf', by rw [hlen', List.length_set], ?_⟩
        simp only [strsep_loop, hs]
        rw [hloop, hdrop, hrest, strsep_fields_append_comma _ _ hnc]
        simp only [List.foldl_cons]
    · have hs : strsep buf i = (tok, none, buf) := by
        rw [hstrsep]; simp only [hlt, if_false]
      rcases hsplit with hall | ⟨rest, hrest⟩
      · refine ⟨buf, rfl, ?_⟩
        simp only [strsep_loop, hs, strsep_loop_null]
        rw [hall] at hnc
        rw [strsep_fields_no_comma _ hnc]
        simp only [List.foldl_cons, List.foldl_nil, hall]
      · exfalso
        have hrest_len := congrArg List.length hrest
        simp only [List.length_append, List.length_cons] at hrest_len
        omega

/-- The lines of `make_dcpl` that work on the copy of the parameter string
end; when the string values are short they leave the locals `parse_params`
describes and leave the heap as it was: the caller's string is not written to
and the copy is freed. -/
theorem parse_params_in_place_eq (env : Env) (h : Heap) (p : Nat) :
    parse_params_in_place env h p =
      if string_values_fit (h.getD p []) then some (parse_params env (h.getD p []), h)
      else none := by
  obtain ⟨buf', _, hloop⟩ := strsep_loop_spec env ((h.getD p []).length + 1) (h.getD p []) 0 {}
    (Nat.zero_le _) (by omega)
  have hget : (h ++ [h.getD p []]).getD h.length [] = h.getD p [] := by
    rw [List.getD_append_right _ _ _ _ (Nat.le_refl _)]
    simp
  have hov := parse_params_overrun env (h.getD p [])
  unfold parse_params at hov
  unfold parse_params_in_place strdup free parse_params
  simp only [hget, hloop, List.drop_zero, hov]
  rw [List.set_append_right _ _ (Nat.le_refl _), List.eraseIdx_append_of_length_le (Nat.le_refl _)]
  cases string_values_fit (h.getD p []) <;> simp

/-- Counterexample to C16 as stated: for a gzip request with a `method=`
value of 24 characters the parsing pass writes past the end of `dummy[16]`:
neither call has a defined result, and the state of the memory, the caller's
string included, is undefined. -/
theorem make_dcpl_gzip_method_overrun :
    is_gzip "gzip".toList = true ∧
    string_values_fit "method=aaaaaaaaaaaaaaaaaaaaaaaa".toList = false ∧
    get_tokval sscanf_s 64 "method=aaaaaaaaaaaaaaaaaaaaaaaa".toList "method=%s".toList
      = .overrun ∧
    (make_dcpl Env.plain false "gzip".toList "method=aaaaaaaaaaaaaaaaaaaaaaaa".toList
      [2000]).overrun = true ∧
    parse_params_in_place Env.plain ["method=aaaaaaaaaaaaaaaaaaaaaaaa".toList] 0 = none := by
  decide

/-- **C16, amended.** For a gzip request, every shape and every parameter
string with short string values: the call of `make_dcpl` stays within its
arrays and leaves the static flag as it found it, so two calls in succession
with the same arguments return the same result (layout, chunk shape, filters,
and no warning either time); and the parsing lines, run on a heap where the
caller's parameter string is the allocation `p`, end with the locals the plan
is made from and leave the heap as it was, the caller's string included. -/
theorem make_dcpl_gzip_repeatable (env : Env) (hw : Bool) (alg params : List Char)
    (shape : List Nat) (h : Heap) (p : Nat)
    (hg : is_gzip alg = true) (hfit : string_values_fit params = true)
    (hp : h[p]? = some params) :
    (make_dcpl env hw alg params shape).overrun = false ∧
    (make_dcpl env hw alg params shape).have_issued_warning = hw ∧
    make_dcpl_seq env hw [(alg, params, shape), (alg, params, shape)]
      = [make_dcpl env hw alg params shape, make_dcpl env hw alg params shape] ∧
    (make_dcpl env hw alg params shape).warnings = [] ∧
    parse_params_in_place env h p = some (parse_params env params, h) := by
  have ha : alg ≠ [] := by
    intro e
    rw [e] at hg
    exact absurd hg (by decide)
  have hflag : (make_dcpl env hw alg params shape).have_issued_warning = hw := by
    rw [make_dcpl_eq]
    simp only [ha, if_false]
    by_cases h1 : H5Sget_simple_extent_npoints shape < read_threshold params
    · simp only [h1, if_true]
    · simp only [h1, if_false, hg, if_true]
  have hwarn : (make_dcpl env hw alg params shape).warnings = [] := by
    rw [make_dcpl_eq]
    simp only [ha, if_false]
    by_cases h1 : H5Sget_simple_extent_npoints shape < read_threshold params
    · simp only [h1, if_true]
    · simp only [h1, if_false, hg, if_true]
  have hget : h.getD p [] = params := by
    rw [List.getD_eq_getElem?_getD, hp]
    rfl
  refine ⟨make_dcpl_overrun env hw alg params shape hfit, hflag, ?_, hwarn, ?_⟩
  · simp only [make_dcpl_seq, hflag]
  · rw [parse_params_in_place_eq, hget, hfit]
    rfl

/-- Witness for C16, amended: `gzip` with `level=9,minsize=1024` on 2000
elements, resolved twice. -/
theorem make_dcpl_gzip_repeatable_witness :
    make_dcpl_seq Env.plain false
        [("gzip".toList, "level=9,minsize=1024".toList, [2000]),
          ("gzip".toList, "level=9,minsize=1024".toList, [2000])]
      = [make_dcpl Env.plain false "gzip".toList "level=9,minsize=1024".toList [2000],
          make_dcpl Env.plain false "gzip".toList "level=9,minsize=1024".toList [2000]] ∧
    (make_dcpl Env.plain false "gzip".toList "level=9,minsize=1024".toList [2000]).retval
      = ⟨.H5D_CHUNKED, some [2000], [.shuffle, .deflate 9], [.shuffle, .deflate 9]⟩ ∧
    parse_params_in_place Env.plain ["level=9,minsize=1024".toList] 0
      = some (parse_params Env.plain "level=9,minsize=1024".toList,
          ["level=9,minsize=1024".toList]) :=
  ⟨(make_dcpl_gzip_repeatable Env.plain false "gzip".toList "level=9,minsize=1024".toList
      [2000] ["level=9,minsize=1024".toList] 0 (by decide) (by decide) (by decide)).2.2.1,
    by decide,
    (make_dcpl_gzip_repeatable Env.plain false "gzip".toList "level=9,minsize=1024".toList
      [2000] ["level=9,minsize=1024".toList] 0 (by decide) (by decide) (by decide)).2.2.2.2⟩

/-! ## Theorems: the object key -/

theorem same_shard_lt (F q r : Nat) (hq : q < r) (hmod : q % F = r % F) : q + F ≤ r := by
  have hdvd : F ∣ r - q := (Nat.modEq_iff_dvd' (Nat.le_of_lt hq)).mp hmod
  have hpos : 0 < r - q := by omega
  have := Nat.le_of_dvd hpos hdvd
  omega

theorem sub_shard (F r : Nat) (h : F ≤ r) : (r - F) % F = r % F := by
  have h1 : r = (r - F) + F := by omega
  conv_rhs => rw [h1, Nat.add_mod_right]

theorem first_of_chain_unique (F q r : Nat) (hq : q < F) (hr : r < F)
    (hmod : q % F = r % F) : q = r := by
  rw [Nat.mod_eq_of_lt hq, Nat.mod_eq_of_lt hr] at hmod
  exact hmod

theorem MifInv.init (N F : Nat) : MifInv N F MifState.init where
  lower_done := by intro r h; exact absurd rfl h
  signal_from_done := by intro r h; exact absurd h (by simp [MifState.init])
  acquired_left := by intro q h; simp [MifState.init] at h
  acquired_ascending := by simp [MifState.init]
  next_signalled := by intro r _ h; simp [MifState.init] at h

theorem MifInv.wait_returns {N F : Nat} {s : MifState} (inv : MifInv N F s)
    (r : Nat) (hr : r < N) (hw : s.phase r = .waiting) (hcur : r < F ∨ s.signal r = true) :
    MifInv N F
      { phase := fun x => if x = r then .holding else s.phase x
        signal := fun x => if x = r then false else s.signal x
        acquired := s.acquired ++ [r] } := by
  have hlow : ∀ q, q < r → q % F = r % F → s.phase q = .done := by
    intro q hq hmod
    rcases hcur with hfirst | hsig
    · exact absurd (first_of_chain_unique F q r (by omega) hfirst hmod) (by omega)
    · obtain ⟨hFr, _, hprev, _⟩ := inv.signal_from_done r hsig
      have hqF := same_shard_lt F q r hq hmod
      by_cases hqe : q = r - F
      · rw [hqe]; exact hprev
      · have hne : s.phase (r - F) ≠ .waiting := by rw [hprev]; exact fun h => Phase.noConfusion h
        exact (inv.lower_done (r - F) hne).2 q (by omega) (by rw [sub_shard F r hFr]; exact hmod)
  have hnotr : ∀ q, s.phase q ≠ .waiting → q ≠ r := by
    intro q hq hqr
    rw [hqr] at hq
    exact hq hw
  constructor
  · intro x hx
    simp only at hx ⊢
    by_cases hxr : x = r
    · subst hxr
      refine ⟨hr, fun q hq hmod => ?_⟩
      have hqr : q ≠ x := by omega
      simp only [hqr, if_false]
      exact hlow q hq hmod
    · simp only [hxr, if_false] at hx
      obtain ⟨hxN, hxlow⟩ := inv.lower_done x hx
      refine ⟨hxN, fun q hq hmod => ?_⟩
      have hqd := hxlow q hq hmod
      have hqr : q ≠ r := hnotr q (by rw [hqd]; exact fun h => Phase.noConfusion h)
      simp only [hqr, if_false]
      exact hqd
  · intro x hx
    simp only at hx ⊢
    by_cases hxr : x = r
    · simp [hxr] at hx
    · simp only [hxr, if_false] at hx ⊢
      obtain ⟨h1, h2, h3, h4⟩ := inv.signal_from_done x hx
      have hpr : x - F ≠ r := hnotr (x - F) (by rw [h3]; exact fun h => Phase.noConfusion h)
      simp only [hpr, if_false]
      exact ⟨h1, h2, h3, h4⟩
  · intro q hq
    simp only at hq ⊢
    by_cases hqr : q = r
    · simp [hqr]
    · simp only [hqr, if_false]
      rcases List.mem_append.mp hq with h | h
      · exact inv.acquired_left q h
      · exact absurd (List.mem_singleton.mp h) hqr
  · simp only
    rw [List.pairwise_append]
    refine ⟨inv.acquired_ascending, List.pairwise_singleton _ _, ?_⟩
    intro a ha b hb hmod
    rw [List.mem_singleton.mp hb] at hmod ⊢
    have hane := inv.acquired_left a ha
    have har : a ≠ r := hnotr a hane
    by_contra hlt
    have hra : r < a := by omega
    have := (inv.lower_done a hane).2 r hra hmod.symm
    rw [hw] at this
    exact Phase.noConfusion this
  · intro x hxN hx hxF
    simp only at hx ⊢
    by_cases hxr : x = r
    · simp [hxr] at hx
    · simp only [hxr, if_false] at hx
      by_cases hnext : x + F = r
      · left; simp [hnext]
      · simp only [hnext, if_false]
        exact inv.next_signalled x hxN hx hxF

theorem MifInv.hand_off {N F : Nat} {s : MifState} (hF : 1 ≤ F) (inv : MifInv N F s)
    (r : Nat) (hr : r < N) (hh : s.phase r = .holding) :
    MifInv N F
      { phase := fun x => if x = r then .done else s.phase x
        signal := fun x => if r + F < N ∧ x = r + F then true else s.signal x
        acquired := s.acquired } := by
  have hrne : s.phase r ≠ .waiting := by rw [hh]; exact fun h => Phase.noConfusion h
  have hnext_waiting : s.phase (r + F) = .waiting := by
    by_contra hne
    have := (inv.lower_done (r + F) hne).2 r (by omega) (by simp)
    rw [hh] at this
    exact Phase.noConfusion this
  constructor
  · intro x hx
    simp only at hx ⊢
    by_cases hxr : x = r
    · subst hxr
      refine ⟨hr, fun q hq hmod => ?_⟩
      have hqr : q ≠ x := by omega
      simp only [hqr, if_false]
      exact (inv.lower_done x hrne).2 q hq hmod
    · simp only [hxr, if_false] at hx
      obtain ⟨hxN, hxlow⟩ := inv.lower_done x hx
      refine ⟨hxN, fun q hq hmod => ?_⟩
      by_cases hqr : q = r
      · simp [hqr]
      · simp only [hqr, if_false]
        exact hxlow q hq hmod
  · intro x hx
    simp only at hx ⊢
    by_cases hnew : r + F < N ∧ x = r + F
    · obtain ⟨hlt, hxe⟩ := hnew
      subst hxe
      have h1 : r + F - F = r := by omega
      have h2 : r + F ≠ r := by omega
      simp only [h1, h2, if_true, if_false]
      exact ⟨by omega, hlt, trivial, hnext_waiting⟩
    · simp only [hnew, if_false] at hx
      obtain ⟨h1, h2, h3, h4⟩ := inv.signal_from_done x hx
      have hxr : x ≠ r := by
        intro e; rw [e] at h4; rw [hh] at h4; exact Phase.noConfusion h4
      simp only [hxr, if_false]
      refine ⟨h1, h2, ?_, h4⟩
      by_cases hp : x - F = r
      · simp [hp]
      · simp only [hp, if_false]; exact h3
  · intro q hq
    simp only at hq ⊢
    by_cases hqr : q = r
    · simp [hqr]
    · simp only [hqr, if_false]
      exact inv.acquired_left q hq
  · exact inv.acquired_ascending
  · intro x hxN hx hxF
    simp only at hx ⊢
    by_cases hxr : x = r
    · subst hxr
      right
      simp [hxF]
    · simp only [hxr, if_false] at hx
      rcases inv.next_signalled x hxN hx hxF with h | h
      · left
        by_cases hn : x + F = r
        · simp [hn]
        · simp only [hn, if_false]; exact h
      · right
        by_cases hn : r + F < N ∧ x + F = r + F
        · simp [hn]
        · simp only [hn, if_false]; exact h

theorem MifInv.step {N F : Nat} {s : MifState} (hF : 1 ≤ F) (inv : MifInv N F s)
    (a : MifAction) : MifInv N F (s.step N F a) := by
  cases a with
  | wait_returns r =>
    unfold MifState.step
    by_cases h : r < N ∧ s.phase r = .waiting ∧ (r < F ∨ s.signal r = true)
    · simp only [h, and_self, if_true]
      exact inv.wait_returns r h.1 h.2.1 h.2.2
    · simp only [h, if_false]
      exact inv
  | hand_off r =>
    unfold MifState.step
    by_cases h : r < N ∧ s.phase r = .holding
    · simp only [h, and_self, if_true]
      exact inv.hand_off hF r h.1 h.2
    · simp only [h, if_false]
      exact inv

theorem MifInv.foldl {N F : Nat} (hF : 1 ≤ F) (acts : List MifAction) :
    ∀ s : MifState, MifInv N F s → MifInv N F (acts.foldl (MifState.step N F) s) := by
  induction acts with
  | nil => intro s inv; exact inv
  | cons a rest ih => intro s inv; exact ih _ (inv.step hF a)

theorem MifInv.run (N F : Nat) (hF : 1 ≤ F) (acts : List MifAction) :
    MifInv N F (MifState.run N F acts) :=
  MifInv.foldl hF acts _ (MifInv.init N F)

/-- Of two members of a chain the higher is not the current holder while the
lower is. -/
theorem holds_token_lower {N F : Nat} {s : MifState} (inv : MifInv N F s) (r r' : Nat)
    (hlt : r < r') (hmod : r % F = r' % F) (h : holds_token N F s r)
    (h' : holds_token N F s r') : False := by
  have hnd : s.phase r ≠ .done := by
    rcases h.2 with hh | ⟨hw, _⟩
    · rw [hh]; exact fun e => Phase.noConfusion e
    · rw [hw]; exact fun e => Phase.noConfusion e
  rcases h'.2 with hh | ⟨_, hfirst | hsig⟩
  · exact hnd ((inv.lower_done r' (by rw [hh]; exact fun e => Phase.noConfusion e)).2 r hlt hmod)
  · exact absurd (first_of_chain_unique F r r' (by omega) hfirst hmod) (by omega)
  · obtain ⟨hFr, _, hprev, _⟩ := inv.signal_from_done r' hsig
    have hrF := same_shard_lt F r r' hlt hmod
    by_cases hre : r = r' - F
    · rw [hre] at hnd; exact hnd hprev
    · exact hnd ((inv.lower_done (r' - F)
        (by rw [hprev]; exact fun e => Phase.noConfusion e)).2 r (by omega)
        (by rw [sub_shard F r' hFr]; exact hmod))

/-- Until every member of a chain has handed off, one of them is the current
holder. -/
theorem holds_token_exists {N F : Nat} {s : MifState} (hF : 1 ≤ F) (inv : MifInv N F s)
    (sh : Nat) :
    (∀ r, r < N → r % F = sh → s.phase r = .done) ∨
    ∃ r, r % F = sh ∧ holds_token N F s r := by
  by_cases hall : ∀ r, r < N → r % F = sh → s.phase r = .done
  · exact Or.inl hall
  · right
    have hex : ∃ r, r < N ∧ r % F = sh ∧ s.phase r ≠ .done := by
      by_contra hne
      apply hall
      intro r hr hmod
      by_contra hd
      exact hne ⟨r, hr, hmod, hd⟩
    classical
    obtain ⟨hr0N, hr0mod, hr0nd⟩ := Nat.find_spec hex
    have hmin : ∀ m, m < Nat.find hex → ¬ (m < N ∧ m % F = sh ∧ s.phase m ≠ .done) :=
      fun m hm => Nat.find_min hex hm
    refine ⟨Nat.find hex, hr0mod, hr0N, ?_⟩
    cases hph : s.phase (Nat.find hex) with
    | done => exact absurd hph hr0nd
    | holding => exact Or.inl rfl
    | waiting =>
      right
      refine ⟨rfl, ?_⟩
      by_cases hfirst : Nat.find hex < F
      · exact Or.inl hfirst
      · right
        have hFr : F ≤ Nat.find hex := by omega
        have hq : s.phase (Nat.find hex - F) = .done := by
          by_contra hqd
          exact hmin (Nat.find hex - F) (by omega)
            ⟨by omega, by rw [sub_shard F _ hFr]; exact hr0mod, hqd⟩
        have hadd : Nat.find hex - F + F = Nat.find hex := by omega
        rcases inv.next_signalled (Nat.find hex - F) (by omega) hq (by omega) with h | h
        · rw [hadd] at h; exact absurd hph h
        · rw [hadd] at h; exact h

/-- **C17.** For every shard count `1 ≤ F ≤ N`, in every state a dump cycle
of `N` workers can reach: no two workers of a shard are in the section
between `MACSIO_MIF_WaitForBaton` and `MACSIO_MIF_HandOffBaton` at once; a
shard has at most one current holder of its token, and has one until every
member of its chain has handed off (at the start it is the shard's first
rank); a worker that has left its wait finds every lower-ranked member of
its chain past its hand-off; and the workers of a shard have acquired the
token in strictly ascending rank order. -/
theorem token_single_holder_ascending (N F : Nat) (acts : List MifAction)
    (hF : 1 ≤ F) (hFN : F ≤ N) :
    (∀ r r', r % F = r' % F → (MifState.run N F acts).phase r = .holding →
      (MifState.run N F acts).phase r' = .holding → r = r') ∧
    (∀ r r', r % F = r' % F → holds_token N F (MifState.run N F acts) r →
      holds_token N F (MifState.run N F acts) r' → r = r') ∧
    (∀ sh, sh < F →
      holds_token N F MifState.init sh ∧
      ((∀ r, r < N → r % F = sh → (MifState.run N F acts).phase r = .done) ∨
        ∃ r, r % F = sh ∧ holds_token N F (MifState.run N F acts) r)) ∧
    (∀ r, (MifState.run N F acts).phase r ≠ .waiting →
      ∀ q, q < r → q % F = r % F → (MifState.run N F acts).phase q = .done) ∧
    (MifState.run N F acts).acquired.Pairwise (fun a b => a % F = b % F → a < b) := by
  have inv := MifInv.run N F hF acts
  have huniq : ∀ r r', r % F = r' % F → holds_token N F (MifState.run N F acts) r →
      holds_token N F (MifState.run N F acts) r' → r = r' := by
    intro r r' hmod h h'
    rcases Nat.lt_trichotomy r r' with hlt | heq | hgt
    · exact absurd (holds_token_lower inv r r' hlt hmod h h') id
    · exact heq
    · exact absurd (holds_token_lower inv r' r hgt hmod.symm h' h) id
  refine ⟨?_, huniq, ?_, fun r hr => (inv.lower_done r hr).2, inv.acquired_ascending⟩
  · intro r r' hmod h h'
    have hr : (MifState.run N F acts).phase r ≠ .waiting := by
      rw [h]; exact fun e => Phase.noConfusion e
    have hr' : (MifState.run N F acts).phase r' ≠ .waiting := by
      rw [h']; exact fun e => Phase.noConfusion e
    exact huniq r r' hmod ⟨(inv.lower_done r hr).1, Or.inl h⟩
      ⟨(inv.lower_done r' hr').1, Or.inl h'⟩
  · intro sh hsh
    exact ⟨⟨by omega, Or.inr ⟨rfl, Or.inl hsh⟩⟩, holds_token_exists hF inv sh⟩

/-- Witness for C17: four workers and two shards, chains `[0, 2]` and
`[1, 3]`; rank 2 cannot leave its wait before rank 0 has handed off. -/
theorem token_single_holder_ascending_witness :
    (MifState.run 4 2
      [.wait_returns 0, .wait_returns 2, .wait_returns 1, .hand_off 0, .wait_returns 2,
        .hand_off 1, .wait_returns 3]).acquired = [0, 1, 2, 3] ∧
    (MifState.run 4 2
      [.wait_returns 0, .wait_returns 2, .wait_returns 1, .hand_off 0, .wait_returns 2,
        .hand_off 1, .wait_returns 3]).acquired.Pairwise (fun a b => a % 2 = b % 2 → a < b) :=
  ⟨by decide,
    (token_single_holder_ascending 4 2
      [.wait_returns 0, .wait_returns 2, .wait_returns 1, .hand_off 0, .wait_returns 2,
        .hand_off 1, .wait_returns 3] (by decide) (by decide)).2.2.2.2⟩

end MACSio
